import Mathlib

/-! Firemon: the scan pipeline of `main.go`.

A shallow embedding of the URL normaliser, the deduplicator, the classifier,
the worker-pool scheduler and the reporter of Firemon, followed by the
properties proved about them.

Go strings and byte slices are byte sequences.  Functions of the Go standard
library that the program calls (`strings.ToLower`, `url.Parse`,
`json.Unmarshal`, the HTTP client, the file system) are parameters of the
embedding, collected in `Lib`, `OS` and `Probe`; a concrete model of the
library functions, `goLib`, evaluates the program on concrete inputs.
-/

deriving instance DecidableEq for Except

namespace Firemon

/-! ## Strings -/

/-- Go `string` and `[]byte`: a finite sequence of bytes. -/
abbrev GoString := List UInt8

/-- The bytes of a string literal, in UTF-8 as Go stores it. -/
def str (s : String) : GoString := s.toUTF8.data.toList

/-- Go `strings.Contains(s, substr)`: `substr` occurs as a contiguous block of `s`. -/
def Contains (s substr : GoString) : Bool := decide (substr <:+: s)

/-- Go `strings.HasPrefix(s, p)`. -/
def HasPrefix (s p : GoString) : Bool := p.isPrefixOf s

/-! ## Data model (`main.go` lines 19-53) -/

/-- Go `Config`. -/
structure Config where
  Concurrency : Int := 0
  OutputFile : GoString := []
  Verbose : Bool := false
  JSONOutput : Bool := false
deriving DecidableEq, Repr

/-- Go `Result`.  `Error` is `none` for a nil `error` and `some msg` for an
error whose `Error()` text is `msg`.  Field defaults are Go zero values. -/
structure Result where
  URL : GoString := []
  Vulnerable : Bool := false
  VulnType : GoString := []
  Error : Option GoString := none
deriving DecidableEq, Repr

/-- Go `FirebaseResponse`. -/
structure FirebaseResponse where
  Error : GoString := []
deriving DecidableEq, Repr

/-- Go `JSONSummary`. -/
structure JSONSummary where
  TotalScanned : Int := 0
  VulnerableCount : Int := 0
  Concurrency : Int := 0
deriving DecidableEq, Repr

/-- Go `JSONResult`. -/
structure JSONResult where
  URL : GoString := []
  Vulnerable : Bool := false
  VulnType : GoString := []
  ErrorMessage : GoString := []
deriving DecidableEq, Repr

/-- Go `JSONOutput`. -/
structure JSONOutput where
  Summary : JSONSummary := {}
  Results : List JSONResult := []
deriving DecidableEq, Repr

/-! ## The environment of the program -/

/-- The fields of Go `url.URL` that `url.Parse` sets from the input text,
without the encoding hints `RawPath` and `RawFragment`.  `User` is the user
name and the optional password. -/
structure URL where
  Scheme : GoString := []
  Opaque : GoString := []
  User : Option (GoString × Option GoString) := none
  Host : GoString := []
  Path : GoString := []
  OmitHost : Bool := false
  ForceQuery : Bool := false
  RawQuery : GoString := []
  Fragment : GoString := []
deriving DecidableEq, Repr

/-- Standard-library functions called by the program.  An `Except` result is
Go's `(value, err)` pair: `.error msg` when `err != nil`. -/
structure Lib where
  /-- Go `strings.ToLower`. -/
  toLower : GoString → GoString
  /-- Go `strings.TrimSpace`. -/
  trimSpace : GoString → GoString
  /-- Go `url.Parse`. -/
  urlParse : GoString → Except GoString URL
  /-- Go `json.Unmarshal(body, &firebaseResp)` on a zero `FirebaseResponse`. -/
  jsonUnmarshal : GoString → Except GoString FirebaseResponse

/-- What one `client.Get(jsonURL)` followed by `io.ReadAll(resp.Body)` can yield. -/
inductive Probe where
  /-- The call `client.Get` returned `err != nil`. -/
  | getFailed (err : GoString)
  /-- The exchange succeeded with `status`, then `io.ReadAll` returned `err != nil`. -/
  | readFailed (status : Int) (err : GoString)
  /-- The exchange succeeded with `status` and the body was read in full. -/
  | response (status : Int) (body : GoString)
deriving DecidableEq, Repr

/-- The two output streams of the process. -/
inductive Stream where
  | stdout
  | stderr
deriving DecidableEq, Repr

/-- The text written by a function, one entry per `Printf` call, in order. -/
abbrev Output := List (Stream × GoString)

/-- What `bufio.Scanner` yields over an opened file: the scanned lines, then `scanner.Err()`. -/
structure FileScan where
  lines : List GoString := []
  err : Option GoString := none
deriving DecidableEq, Repr

/-- The file system as seen through `os.Stat` and `os.Open`. -/
structure OS where
  /-- Go `os.Stat(path)`: `.ok isDir` or an error. -/
  stat : GoString → Except GoString Bool
  /-- Go `os.Open(filename)` followed by a scan of the file. -/
  scan : GoString → Except GoString FileScan

/-! ## A model of the standard library

The functions below follow the Go sources of `strings`, `net/url` and
`encoding/json` (go1.22).  They serve to run the program on concrete inputs;
the general theorems hold for every `Lib`. -/

/-! ### `strings` and `net/url`: `Parse` (go1.22) -/

/-- The byte of an ASCII character. -/
def byte (c : Char) : UInt8 := c.toNat.toUInt8

/-- Go `strings.ToLower` on its ASCII path: the bytes 'A' to 'Z' are mapped to
'a' to 'z'.  It is Go's function on every string of ASCII bytes.  Bytes from
0x80 on are kept, where Go decodes them as UTF-8 and applies the Unicode
lower-case mapping (under which U+0130 becomes 'i'); `goLib` is therefore
evaluated on ASCII inputs only. -/
def asciiToLower (s : GoString) : GoString :=
  s.map (fun c => if byte 'A' ≤ c ∧ c ≤ byte 'Z' then c + (byte 'a' - byte 'A') else c)

/-- Whether Go `unicode.IsSpace` holds of an ASCII byte. -/
def isAsciiSpace (c : UInt8) : Bool :=
  c = byte '\t' ∨ c = byte '\n' ∨ c = 0x0b ∨ c = 0x0c ∨ c = byte '\r' ∨ c = byte ' '

/-- Go `strings.TrimSpace` for ASCII white space. -/
def asciiTrimSpace (s : GoString) : GoString :=
  ((s.dropWhile isAsciiSpace).reverse.dropWhile isAsciiSpace).reverse

/-- Go `strings.Cut(s, sep)` for a one-byte separator. -/
def cutByte (s : GoString) (sep : UInt8) : GoString × GoString × Bool :=
  match s.span (fun c => c ≠ sep) with
  | (before, []) => (before, [], false)
  | (before, _ :: after) => (before, after, true)

/-- Go `strings.IndexByte`, `none` for -1. -/
def indexByte (s : GoString) (c : UInt8) : Option Nat :=
  if c ∈ s then some (s.indexOf c) else none

/-- Go `strings.LastIndexByte`, `none` for -1. -/
def lastIndexByte (s : GoString) (c : UInt8) : Option Nat :=
  if c ∈ s then some (s.length - 1 - s.reverse.indexOf c) else none

/-- Go `strings.Index`, `none` for -1. -/
def index (s substr : GoString) : Option Nat :=
  (List.range (s.length + 1)).find? (fun i => substr.isPrefixOf (s.drop i))

/-- The `encoding` modes of `net/url`. -/
inductive Encoding where
  | encodePath | encodePathSegment | encodeHost | encodeZone
  | encodeUserPassword | encodeQueryComponent | encodeFragment
deriving DecidableEq, Repr

open Encoding

/-- ASCII letters and digits, the unreserved characters of `shouldEscape`. -/
def isAlnum (c : UInt8) : Bool :=
  (byte 'a' ≤ c ∧ c ≤ byte 'z') ∨ (byte 'A' ≤ c ∧ c ≤ byte 'Z') ∨ (byte '0' ≤ c ∧ c ≤ byte '9')

/-- Go `url.shouldEscape`. -/
def shouldEscape (c : UInt8) (mode : Encoding) : Bool :=
  if isAlnum c then false
  else if (mode = encodeHost ∨ mode = encodeZone) ∧
      c ∈ str "!$&\x27()*+,;=:[]<>\"" then false
  else if c ∈ str "-_.~" then false
  else if c ∈ str "$&+,/:;=?@" ∧ mode = encodePath then c = byte '?'
  else if c ∈ str "$&+,/:;=?@" ∧ mode = encodePathSegment then
    c = byte '/' ∨ c = byte ';' ∨ c = byte ',' ∨ c = byte '?'
  else if c ∈ str "$&+,/:;=?@" ∧ mode = encodeUserPassword then
    c = byte '@' ∨ c = byte '/' ∨ c = byte '?' ∨ c = byte ':'
  else if c ∈ str "$&+,/:;=?@" ∧ mode = encodeQueryComponent then true
  else if c ∈ str "$&+,/:;=?@" ∧ mode = encodeFragment then false
  else if mode = encodeFragment ∧ c ∈ str "!()*" then false
  else true

/-- Go `url.ishex`. -/
def ishex (c : UInt8) : Bool :=
  (byte '0' ≤ c ∧ c ≤ byte '9') ∨ (byte 'a' ≤ c ∧ c ≤ byte 'f') ∨ (byte 'A' ≤ c ∧ c ≤ byte 'F')

/-- Go `url.unhex`. -/
def unhex (c : UInt8) : UInt8 :=
  if byte '0' ≤ c ∧ c ≤ byte '9' then c - byte '0'
  else if byte 'a' ≤ c ∧ c ≤ byte 'f' then c - byte 'a' + 10
  else if byte 'A' ≤ c ∧ c ≤ byte 'F' then c - byte 'A' + 10
  else 0

/-- The first loop of Go `url.unescape`: the check that the escapes are well formed. -/
def unescapeCheck (mode : Encoding) : GoString → Except GoString Unit
  | [] => .ok ()
  | c :: rest =>
    if c = byte '%' then
      match rest with
      | h1 :: h2 :: rest2 =>
        if !ishex h1 || !ishex h2 then .error (str "invalid URL escape")
        else if mode = encodeHost ∧ unhex h1 < 8 ∧ [c, h1, h2] ≠ str "%25" then
          .error (str "invalid URL escape")
        else if mode = encodeZone ∧ [c, h1, h2] ≠ str "%25" ∧
            (unhex h1 <<< 4 ||| unhex h2) ≠ byte ' ' ∧
            shouldEscape (unhex h1 <<< 4 ||| unhex h2) encodeHost then
          .error (str "invalid URL escape")
        else unescapeCheck mode rest2
      | _ => .error (str "invalid URL escape")
    else if c ≠ byte '+' ∧ (mode = encodeHost ∨ mode = encodeZone) ∧ c < 0x80 ∧
        shouldEscape c encodeHost then
      .error (str "invalid character in host name")
    else unescapeCheck mode rest

/-- The second loop of Go `url.unescape`: the decoding. -/
def unescapeDecode (mode : Encoding) : GoString → GoString
  | [] => []
  | c :: rest =>
    if c = byte '%' then
      match rest with
      | h1 :: h2 :: rest2 => (unhex h1 <<< 4 ||| unhex h2) :: unescapeDecode mode rest2
      | _ => []
    else if c = byte '+' ∧ mode = encodeQueryComponent then byte ' ' :: unescapeDecode mode rest
    else c :: unescapeDecode mode rest

/-- Go `url.unescape`. -/
def unescape (s : GoString) (mode : Encoding) : Except GoString GoString :=
  match unescapeCheck mode s with
  | .error e => .error e
  | .ok () => .ok (unescapeDecode mode s)


/-- Go `url.getScheme`, from index `i` with `rest = rawURL[i:]`. -/
def getSchemeFrom (rawURL : GoString) : Nat → GoString → Except GoString (GoString × GoString)
  | _, [] => .ok ([], rawURL)
  | i, c :: rest =>
    if (byte 'a' ≤ c ∧ c ≤ byte 'z') ∨ (byte 'A' ≤ c ∧ c ≤ byte 'Z') then
      getSchemeFrom rawURL (i + 1) rest
    else if (byte '0' ≤ c ∧ c ≤ byte '9') ∨ c = byte '+' ∨ c = byte '-' ∨ c = byte '.' then
      if i = 0 then .ok ([], rawURL) else getSchemeFrom rawURL (i + 1) rest
    else if c = byte ':' then
      if i = 0 then .error (str "missing protocol scheme")
      else .ok (rawURL.take i, rawURL.drop (i + 1))
    else .ok ([], rawURL)

/-- Go `url.getScheme`: the scheme and the rest of the text. -/
def getScheme (rawURL : GoString) : Except GoString (GoString × GoString) :=
  getSchemeFrom rawURL 0 rawURL

/-- Go `url.stringContainsCTLByte`. -/
def stringContainsCTLByte (s : GoString) : Bool :=
  s.any (fun b => b < byte ' ' ∨ b = 0x7f)

/-- Go `url.validOptionalPort`. -/
def validOptionalPort (port : GoString) : Bool :=
  match port with
  | [] => true
  | c :: digits => c = byte ':' ∧ digits.all (fun b => ¬ (b < byte '0' ∨ b > byte '9'))

/-- Go `url.validUserinfo`. -/
def validUserinfo (s : GoString) : Bool :=
  s.all (fun r => isAlnum r ∨ r ∈ str "-._:~!$&\x27()*+,;=%@")

/-- Go `url.parseHost`. -/
def parseHost (host : GoString) : Except GoString GoString :=
  if HasPrefix host (str "[") then
    match lastIndexByte host (byte ']') with
    | none => .error (str "missing ']' in host")
    | some i =>
      if !validOptionalPort (host.drop (i + 1)) then .error (str "invalid port after host")
      else
        match index (host.take i) (str "%25") with
        | some zone =>
          match unescape (host.take zone) encodeHost with
          | .error e => .error e
          | .ok host1 =>
            match unescape ((host.take i).drop zone) encodeZone with
            | .error e => .error e
            | .ok host2 =>
              match unescape (host.drop i) encodeHost with
              | .error e => .error e
              | .ok host3 => .ok (host1 ++ host2 ++ host3)
        | none => unescape host encodeHost
  else
    match lastIndexByte host (byte ':') with
    | some i =>
      if !validOptionalPort (host.drop i) then .error (str "invalid port after host")
      else unescape host encodeHost
    | none => unescape host encodeHost

/-- Go `url.parseAuthority`: the user information and the host. -/
def parseAuthority (authority : GoString) :
    Except GoString (Option (GoString × Option GoString) × GoString) :=
  let i := lastIndexByte authority (byte '@')
  match (match i with
      | none => parseHost authority
      | some i => parseHost (authority.drop (i + 1))) with
  | .error e => .error e
  | .ok host =>
    match i with
    | none => .ok (none, host)
    | some i =>
      let userinfo := authority.take i
      if !validUserinfo userinfo then .error (str "net/url: invalid userinfo")
      else if !Contains userinfo (str ":") then
        match unescape userinfo encodeUserPassword with
        | .error e => .error e
        | .ok userinfo => .ok (some (userinfo, none), host)
      else
        match unescape (cutByte userinfo (byte ':')).1 encodeUserPassword with
        | .error e => .error e
        | .ok username =>
          match unescape (cutByte userinfo (byte ':')).2.1 encodeUserPassword with
          | .error e => .error e
          | .ok password => .ok (some (username, some password), host)

/-- Go `url.parse`, after the fragment has been cut off. -/
def parse (rawURL : GoString) (viaRequest : Bool) : Except GoString URL :=
  if stringContainsCTLByte rawURL then
    .error (str "net/url: invalid control character in URL")
  else if rawURL = str "" ∧ viaRequest then .error (str "empty url")
  else if rawURL = str "*" then .ok { Path := str "*" }
  else
    match getScheme rawURL with
    | .error e => .error e
    | .ok (scheme, rest0) =>
      let scheme := asciiToLower scheme
      let forceQuery : Bool := rest0.getLast? = some (byte '?') ∧ rest0.count (byte '?') = 1
      let rest := if forceQuery then rest0.dropLast else (cutByte rest0 (byte '?')).1
      let rawQuery := if forceQuery then [] else (cutByte rest0 (byte '?')).2.1
      if !HasPrefix rest (str "/") ∧ scheme ≠ str "" then
        .ok { Scheme := scheme, Opaque := rest, ForceQuery := forceQuery, RawQuery := rawQuery }
      else if !HasPrefix rest (str "/") ∧ viaRequest then .error (str "invalid URI for request")
      else if !HasPrefix rest (str "/") ∧ Contains (cutByte rest (byte '/')).1 (str ":") then
        .error (str "first path segment in URL cannot contain colon")
      else if (scheme ≠ str "" ∨ (!viaRequest ∧ !HasPrefix rest (str "///"))) ∧
          HasPrefix rest (str "//") then
        let authority0 := rest.drop 2
        let authority := match indexByte authority0 (byte '/') with
          | some i => authority0.take i
          | none => authority0
        let rest := match indexByte authority0 (byte '/') with
          | some i => authority0.drop i
          | none => []
        match parseAuthority authority with
        | .error e => .error e
        | .ok (user, host) =>
          match unescape rest encodePath with
          | .error e => .error e
          | .ok path =>
            .ok { Scheme := scheme, User := user, Host := host, Path := path,
                  ForceQuery := forceQuery, RawQuery := rawQuery }
      else
        match unescape rest encodePath with
        | .error e => .error e
        | .ok path =>
          .ok { Scheme := scheme, Path := path,
                OmitHost := scheme ≠ str "" ∧ HasPrefix rest (str "/"),
                ForceQuery := forceQuery, RawQuery := rawQuery }

/-- Go `url.Parse`.  The error text is the cause, without the wrapping
`parse "...": `. -/
def urlParse (rawURL : GoString) : Except GoString URL :=
  let u := (cutByte rawURL (byte '#')).1
  let frag := (cutByte rawURL (byte '#')).2.1
  match parse u false with
  | .error e => .error e
  | .ok url =>
    if frag = str "" then .ok url
    else
      match unescape frag encodeFragment with
      | .error e => .error e
      | .ok fragment => .ok { url with Fragment := fragment }

/-! ### `encoding/json`: `Unmarshal` into a `FirebaseResponse` (go1.22) -/

/-- A JSON value as `encoding/json` scans it.  A string carries the bytes
between its quotes, escapes included; numbers and booleans carry nothing, as
the decoder into `FirebaseResponse` never reads them. -/
inductive JSON where
  | null
  | bool
  | number
  | string (raw : GoString)
  | array (elems : List JSON)
  | object (members : List (GoString × JSON))
deriving Repr

/-- Go `json.isSpace`. -/
def isSpace (c : UInt8) : Bool :=
  c = byte ' ' ∨ c = byte '\t' ∨ c = byte '\r' ∨ c = byte '\n'

/-- An ASCII digit. -/
def isDigit (c : UInt8) : Bool := byte '0' ≤ c ∧ c ≤ byte '9'

/-- The bytes of a string after its opening quote: the raw text up to the
closing quote and what follows it; `none` on a control byte, a bad escape or
a missing closing quote. -/
def scanString : GoString → Option (GoString × GoString)
  | [] => none
  | c :: rest =>
    if c = byte '"' then some ([], rest)
    else if c = byte '\\' then
      match rest with
      | e :: rest2 =>
        if e ∈ str "bfnrt\\/\"" then
          (scanString rest2).map (fun r => (c :: e :: r.1, r.2))
        else if e = byte 'u' then
          match rest2 with
          | h1 :: h2 :: h3 :: h4 :: rest3 =>
            if ishex h1 ∧ ishex h2 ∧ ishex h3 ∧ ishex h4 then
              (scanString rest3).map (fun r => (c :: e :: h1 :: h2 :: h3 :: h4 :: r.1, r.2))
            else none
          | _ => none
        else none
      | [] => none
    else if c < 0x20 then none
    else (scanString rest).map (fun r => (c :: r.1, r.2))

/-- One or more digits, then the rest. -/
def scanDigits (s : GoString) : Option GoString :=
  match s with
  | c :: _ => if isDigit c then some (s.dropWhile isDigit) else none
  | [] => none

/-- The exponent of a number, if any. -/
def scanExp (s : GoString) : Option GoString :=
  match s with
  | c :: rest =>
    if c = byte 'e' ∨ c = byte 'E' then
      match rest with
      | sign :: rest2 =>
        if sign = byte '+' ∨ sign = byte '-' then scanDigits rest2 else scanDigits rest
      | [] => none
    else some s
  | [] => some s

/-- The fraction and exponent of a number, if any. -/
def scanFrac (s : GoString) : Option GoString :=
  match s with
  | c :: rest => if c = byte '.' then (scanDigits rest).bind scanExp else scanExp s
  | [] => some s

/-- A number after its optional minus sign. -/
def scanUnsigned (s : GoString) : Option GoString :=
  match s with
  | c :: rest =>
    if c = byte '0' then scanFrac rest
    else if byte '1' ≤ c ∧ c ≤ byte '9' then scanFrac (rest.dropWhile isDigit)
    else none
  | [] => none

/-- Go `json.maxNestingDepth`. -/
def maxNestingDepth : Nat := 10000

mutual
/-- A value at nesting depth `depth`, after optional white space. -/
def scanValue : Nat → Nat → GoString → Option (JSON × GoString)
  | 0, _, _ => none
  | fuel + 1, depth, s =>
    match s.dropWhile isSpace with
    | [] => none
    | c :: rest =>
      if c = byte '{' then
        if depth + 1 ≤ maxNestingDepth then
          match rest.dropWhile isSpace with
          | [] => none
          | d :: rest2 =>
            if d = byte '}' then some (.object [], rest2)
            else (scanMembers fuel (depth + 1) rest).map (fun r => (.object r.1, r.2))
        else none
      else if c = byte '[' then
        if depth + 1 ≤ maxNestingDepth then
          match rest.dropWhile isSpace with
          | [] => none
          | d :: rest2 =>
            if d = byte ']' then some (.array [], rest2)
            else (scanElems fuel (depth + 1) rest).map (fun r => (.array r.1, r.2))
        else none
      else if c = byte '"' then (scanString rest).map (fun r => (.string r.1, r.2))
      else if c = byte '-' then (scanUnsigned rest).map (fun r => (.number, r))
      else if isDigit c then (scanUnsigned (c :: rest)).map (fun r => (.number, r))
      else if (str "true").isPrefixOf (c :: rest) then some (.bool, rest.drop 3)
      else if (str "false").isPrefixOf (c :: rest) then some (.bool, rest.drop 4)
      else if (str "null").isPrefixOf (c :: rest) then some (.null, rest.drop 3)
      else none
/-- The elements of an array after `[` or `,`, up to and including `]`. -/
def scanElems : Nat → Nat → GoString → Option (List JSON × GoString)
  | 0, _, _ => none
  | fuel + 1, depth, s =>
    match scanValue fuel depth s with
    | none => none
    | some (v, rest) =>
      match rest.dropWhile isSpace with
      | [] => none
      | c :: rest2 =>
        if c = byte ']' then some ([v], rest2)
        else if c = byte ',' then (scanElems fuel depth rest2).map (fun r => (v :: r.1, r.2))
        else none
/-- The members of an object after `{` or `,`, up to and including `}`. -/
def scanMembers : Nat → Nat → GoString → Option (List (GoString × JSON) × GoString)
  | 0, _, _ => none
  | fuel + 1, depth, s =>
    match s.dropWhile isSpace with
    | [] => none
    | q :: rest =>
      if q = byte '"' then
        match scanString rest with
        | none => none
        | some (key, rest2) =>
          match rest2.dropWhile isSpace with
          | [] => none
          | colon :: rest3 =>
            if colon = byte ':' then
              match scanValue fuel depth rest3 with
              | none => none
              | some (v, rest4) =>
                match rest4.dropWhile isSpace with
                | [] => none
                | c :: rest5 =>
                  if c = byte '}' then some ([(key, v)], rest5)
                  else if c = byte ',' then
                    (scanMembers fuel depth rest5).map (fun r => ((key, v) :: r.1, r.2))
                  else none
            else none
      else none
end

/-- Go `json.checkValid` together with the value scanned: one value, with
white space around it and nothing else. -/
def scanTop (data : GoString) : Option JSON :=
  match scanValue (data.length + 1) 0 data with
  | none => none
  | some (v, rest) => if rest.dropWhile isSpace = [] then some v else none

/-- Go `utf8.EncodeRune` on a rune. -/
def encodeRune (r : Nat) : GoString :=
  if r < 0x80 then [r.toUInt8]
  else if r < 0x800 then [(0xC0 + r / 64).toUInt8, (0x80 + r % 64).toUInt8]
  else if r < 0x10000 then
    [(0xE0 + r / 4096).toUInt8, (0x80 + r / 64 % 64).toUInt8, (0x80 + r % 64).toUInt8]
  else
    [(0xF0 + r / 262144).toUInt8, (0x80 + r / 4096 % 64).toUInt8,
      (0x80 + r / 64 % 64).toUInt8, (0x80 + r % 64).toUInt8]

/-- The size that Go `utf8.DecodeRune` returns at the head of `s` when the
encoding there is well formed, `none` when it returns `RuneError` with size 1. -/
def validRuneSize (s : GoString) : Option Nat :=
  let cont (c : UInt8) : Bool := 0x80 ≤ c ∧ c ≤ 0xBF
  match s with
  | [] => none
  | c0 :: rest =>
    if c0 < 0x80 then some 1
    else if 0xC2 ≤ c0 ∧ c0 ≤ 0xDF then
      match rest with
      | c1 :: _ => if cont c1 then some 2 else none
      | _ => none
    else if 0xE0 ≤ c0 ∧ c0 ≤ 0xEF then
      match rest with
      | c1 :: c2 :: _ =>
        if (if c0 = 0xE0 then 0xA0 else 0x80) ≤ c1 ∧ c1 ≤ (if c0 = 0xED then 0x9F else 0xBF) ∧
            cont c2 then some 3 else none
      | _ => none
    else if 0xF0 ≤ c0 ∧ c0 ≤ 0xF4 then
      match rest with
      | c1 :: c2 :: c3 :: _ =>
        if (if c0 = 0xF0 then 0x90 else 0x80) ≤ c1 ∧ c1 ≤ (if c0 = 0xF4 then 0x8F else 0xBF) ∧
            cont c2 ∧ cont c3 then some 4 else none
      | _ => none
    else none

/-- Go `json.getu4`: the code unit of a leading `\uXXXX`, `none` for -1. -/
def getu4 (s : GoString) : Option Nat :=
  match s with
  | b :: u :: h1 :: h2 :: h3 :: h4 :: _ =>
    if b = byte '\\' ∧ u = byte 'u' ∧ ishex h1 ∧ ishex h2 ∧ ishex h3 ∧ ishex h4 then
      some ((((unhex h1).toNat * 16 + (unhex h2).toNat) * 16 + (unhex h3).toNat) * 16 +
        (unhex h4).toNat)
    else none
  | _ => none

/-- The loop of Go `json.unquoteBytes` on the bytes between the quotes of a
string that the scanner has accepted. -/
def unquoteFrom : Nat → GoString → GoString
  | 0, _ => []
  | _, [] => []
  | fuel + 1, c :: rest =>
    if c = byte '\\' then
      match rest with
      | [] => []
      | e :: rest2 =>
        if e = byte 'u' then
          match getu4 (c :: rest) with
          | none => []
          | some rr =>
            let rest3 := rest2.drop 4
            if 0xD800 ≤ rr ∧ rr < 0xE000 then
              match getu4 rest3 with
              | some rr1 =>
                if rr < 0xDC00 ∧ 0xDC00 ≤ rr1 ∧ rr1 < 0xE000 then
                  encodeRune ((rr - 0xD800) * 1024 + (rr1 - 0xDC00) + 0x10000) ++
                    unquoteFrom fuel (rest3.drop 6)
                else encodeRune 0xFFFD ++ unquoteFrom fuel rest3
              | none => encodeRune 0xFFFD ++ unquoteFrom fuel rest3
            else encodeRune rr ++ unquoteFrom fuel rest3
        else
          (if e = byte 'b' then 0x08
            else if e = byte 'f' then 0x0c
            else if e = byte 'n' then byte '\n'
            else if e = byte 'r' then byte '\r'
            else if e = byte 't' then byte '\t'
            else e) :: unquoteFrom fuel rest2
    else if c < 0x80 then c :: unquoteFrom fuel rest
    else
      match validRuneSize (c :: rest) with
      | some size => (c :: rest).take size ++ unquoteFrom fuel ((c :: rest).drop size)
      | none => encodeRune 0xFFFD ++ unquoteFrom fuel rest

/-- Go `json.unquoteBytes` on the raw text of a scanned string. -/
def unquote (raw : GoString) : GoString := unquoteFrom raw.length raw

/-- Whether a decoded object key selects the field `Error`, whose JSON name
is "error": equality up to the case of ASCII letters. -/
def isErrorKey (key : GoString) : Bool :=
  key.map (fun c => if byte 'A' ≤ c ∧ c ≤ byte 'Z' then c + 32 else c) = str "error"

/-- Go `json.Unmarshal(data, &firebaseResp)` for a zero `FirebaseResponse`:
the decoded value when the returned error is nil. -/
def jsonUnmarshal (data : GoString) : Except GoString FirebaseResponse :=
  match scanTop data with
  | none => .error (str "invalid JSON")
  | some .null => .ok {}
  | some (.object members) =>
    let st := members.foldl (fun (st : FirebaseResponse × Option GoString) m =>
      if isErrorKey (unquote m.1) then
        match m.2 with
        | .string raw => ({ Error := unquote raw }, st.2)
        | .null => st
        | _ =>
          (st.1, st.2.orElse (fun _ =>
            some (str "json: cannot unmarshal into Go struct field FirebaseResponse.error of type string")))
      else st) ({}, none)
    match st.2 with
    | some e => .error e
    | none => .ok st.1
  | some _ =>
    .error (str "json: cannot unmarshal into Go value of type main.FirebaseResponse")

/-- The standard library as modelled above. -/
def goLib : Lib :=
  { toLower := asciiToLower, trimSpace := asciiTrimSpace, urlParse := urlParse,
    jsonUnmarshal := jsonUnmarshal }

/-! ## Input collection (`main.go` lines 99-176) -/

/-- Go `isFile` (line 127): `os.Stat` succeeds and the entry is not a directory. -/
def isFile (os : OS) (path : GoString) : Bool :=
  match os.stat path with
  | .ok isDir => !isDir
  | .error _ => false

/-- Go `readURLsFromFile` (line 132), returning the pair `(urls, err)`. -/
def readURLsFromFile (L : Lib) (os : OS) (filename : GoString) : List GoString × Option GoString :=
  match os.scan filename with
  | .error err => ([], some err)
  | .ok file =>
    let urls := file.lines.foldl (fun urls text =>
      let line := L.trimSpace text
      if line ≠ [] ∧ !HasPrefix line (str "#") then urls ++ [line] else urls) []
    (urls, file.err)

/-- Go `processFirebaseURL` (line 151): the text printed and the returned string. -/
def processFirebaseURL (L : Lib) (config : Config) (rawURL : GoString) : Output × GoString :=
  let lowerURL := L.toLower rawURL
  if !Contains lowerURL (str ".firebaseio.com") then
    (if config.Verbose then
        [(.stdout, str "Skipping non-Firebase URL: " ++ rawURL ++ str "\n")] else [],
      str "")
  else
    match L.urlParse rawURL with
    | .error _ =>
      (if config.Verbose then
          [(.stdout, str "Skipping invalid URL: " ++ rawURL ++ str "\n")] else [],
        str "")
    | .ok parsedURL =>
      let rootURL := parsedURL.Scheme ++ str "://" ++ parsedURL.Host ++ str "/"
      (if config.Verbose then
          [(.stdout, str "Processing Firebase URL: " ++ rawURL ++ str " -> " ++ rootURL ++ str "\n")]
        else [],
        rootURL)

/-- The first loop of Go `collectURLs` (lines 100-115): arguments naming a
file are replaced by the lines read from it. -/
def expandArgs (L : Lib) (os : OS) (config : Config) (args : List GoString) :
    Output × List GoString :=
  args.foldl (fun (st : Output × List GoString) arg =>
    if isFile os arg then
      match readURLsFromFile L os arg with
      | (_, some err) =>
        (if config.Verbose then
            st.1 ++ [(.stderr, str "Warning: Could not read file " ++ arg ++ str ": " ++ err ++ str "\n")]
          else st.1,
          st.2)
      | (fileURLs, none) => (st.1, st.2 ++ fileURLs)
    else (st.1, st.2 ++ [arg])) ([], [])

/-- One iteration of the second loop of `collectURLs` (lines 118-122), on the
pair of the text printed and `firebaseURLs`. -/
def filterFirebaseURLsBody (L : Lib) (config : Config) (st : Output × List GoString)
    (rawURL : GoString) : Output × List GoString :=
  let r := processFirebaseURL L config rawURL
  if r.2 ≠ str "" then (st.1 ++ r.1, st.2 ++ [r.2]) else (st.1 ++ r.1, st.2)

/-- The second loop of Go `collectURLs` (lines 117-122). -/
def filterFirebaseURLs (L : Lib) (config : Config) (urls : List GoString) :
    Output × List GoString :=
  urls.foldl (filterFirebaseURLsBody L config) ([], [])

/-- Go `collectURLs` (line 99). -/
def collectURLs (L : Lib) (os : OS) (config : Config) (args : List GoString) :
    Output × List GoString :=
  let e := expandArgs L os config args
  let f := filterFirebaseURLs L config e.2
  (e.1 ++ f.1, f.2)

/-! ## Deduplication (`main.go` lines 208-220) -/

/-- One iteration of the loop of `removeDuplicates` (lines 212-217), on the
pair of `seen` and `unique`. -/
def removeDuplicatesBody (st : (GoString → Bool) × List GoString) (url : GoString) :
    (GoString → Bool) × List GoString :=
  if !st.1 url then
    (fun k => if k = url then true else st.1 k, st.2 ++ [url])
  else st

/-- Go `removeDuplicates` (line 208).  The map `seen` is a function to `Bool`
whose value at a missing key is `false`. -/
def removeDuplicates (urls : List GoString) : List GoString :=
  (urls.foldl removeDuplicatesBody (fun _ => false, [])).2

/-! ## Classification (`main.go` lines 235-292) -/

/-- Go `checkFirebaseVulnerability` (line 235).  `client` is the HTTP client
together with the network: what the request for a URL yields. -/
def checkFirebaseVulnerability (L : Lib) (config : Config) (client : GoString → Probe)
    (baseURL : GoString) : Output × Result :=
  let jsonURL := baseURL ++ str ".json"
  let out : Output :=
    if config.Verbose then [(.stdout, str "Checking: " ++ jsonURL ++ str "\n")] else []
  match client jsonURL with
  | .getFailed err => (out, { URL := baseURL, Error := some err })
  | .readFailed _ err => (out, { URL := baseURL, Error := some err })
  | .response statusCode body =>
    match L.jsonUnmarshal body with
    | .error _ =>
      if statusCode = 200 ∧ body.length > 0 then
        (out, { URL := baseURL, Vulnerable := true, VulnType := str "READ ACCESS" })
      else
        (out, { URL := baseURL, Error := some (str "could not parse response as JSON") })
    | .ok firebaseResp =>
      if firebaseResp.Error ≠ str "" then
        if Contains firebaseResp.Error (str "404 Not Found") then
          (out, { URL := baseURL, Vulnerable := true, VulnType := str "TAKEOVER" })
        else
          (out, { URL := baseURL })
      else
        (out, { URL := baseURL, Vulnerable := true, VulnType := str "READ ACCESS" })

/-! ## Reporting (`main.go` lines 302-381) -/

/-- What Go `outputTextResults` has computed when it reaches the file write:
the text printed, the lines kept for the output file and the counter. -/
structure TextReport where
  out : Output := []
  outputLines : List GoString := []
  vulnerableCount : Int := 0
deriving DecidableEq, Repr

/-- The line printed by `outputTextResults` at line 325, `%d` being decimal. -/
def summaryLine (vulnerableCount total : Int) : GoString :=
  str "\nScan completed. Found " ++ str (toString vulnerableCount) ++
    str " vulnerable endpoints out of " ++ str (toString total) ++ str " total.\n"

/-- One iteration of the loop of `outputTextResults` (lines 306-322). -/
def outputTextResultsBody (config : Config) (st : TextReport) (result : Result) : TextReport :=
  match result.Error with
  | some err =>
    if config.Verbose then
      { st with out := st.out ++
          [(.stdout, str "Error checking " ++ result.URL ++ str ": " ++ err ++ str "\n")] }
    else st
  | none =>
    if result.Vulnerable then
      let line := result.URL ++ str " [VULNERABLE : " ++ result.VulnType ++ str "]"
      { out := st.out ++ [(.stdout, line ++ str "\n")],
        outputLines := st.outputLines ++ [line],
        vulnerableCount := st.vulnerableCount + 1 }
    else if config.Verbose then
      { st with out := st.out ++ [(.stdout, result.URL ++ str " [NOT VULNERABLE]\n")] }
    else st

/-- Go `outputTextResults` (line 302) up to the summary line; the write of
`outputLines` to `config.OutputFile` that follows is a file-system effect. -/
def outputTextResults (config : Config) (results : List Result) : TextReport :=
  let st := results.foldl (outputTextResultsBody config) {}
  if config.Verbose then
    { st with out := st.out ++ [(.stdout, summaryLine st.vulnerableCount results.length)] }
  else st

/-- One iteration of the loop of `outputJSONResults` (lines 341-355), on the
pair of `jsonResults` and `vulnerableCount`. -/
def outputJSONResultsBody (st : List JSONResult × Int) (result : Result) :
    List JSONResult × Int :=
  let jsonResult : JSONResult := { URL := result.URL, Vulnerable := result.Vulnerable }
  match result.Error with
  | some err => (st.1 ++ [{ jsonResult with ErrorMessage := err }], st.2)
  | none =>
    if result.Vulnerable then
      (st.1 ++ [{ jsonResult with VulnType := result.VulnType }], st.2 + 1)
    else (st.1 ++ [jsonResult], st.2)

/-- Go `outputJSONResults` (line 337): the value `jsonOutput` handed to
`json.MarshalIndent`. -/
def outputJSONResults (config : Config) (results : List Result) : JSONOutput :=
  let st := results.foldl outputJSONResultsBody ([], 0)
  { Summary := { TotalScanned := results.length, VulnerableCount := st.2,
                 Concurrency := config.Concurrency },
    Results := st.1 }

/-! ## The four states of a result (spec, section 4.3) -/

/-- READ_ACCESS: vulnerable, kind "READ ACCESS", no error. -/
def Result.isReadAccess (r : Result) : Prop :=
  r.Vulnerable = true ∧ r.VulnType = str "READ ACCESS" ∧ r.Error = none

/-- TAKEOVER: vulnerable, kind "TAKEOVER", no error. -/
def Result.isTakeover (r : Result) : Prop :=
  r.Vulnerable = true ∧ r.VulnType = str "TAKEOVER" ∧ r.Error = none

/-- Not vulnerable: not vulnerable, no kind, no error. -/
def Result.isNotVulnerable (r : Result) : Prop :=
  r.Vulnerable = false ∧ r.VulnType = str "" ∧ r.Error = none

/-- Failure: an error, not vulnerable, no kind. -/
def Result.isFailure (r : Result) : Prop :=
  r.Error ≠ none ∧ r.Vulnerable = false ∧ r.VulnType = str ""

/-! ## The worker pool (`main.go` lines 178-233)

`processURLsConcurrently` runs a main goroutine, `config.Concurrency` workers
and the goroutine that closes `resultChan`.  The embedding is a transition
system: a state holds the program point of every goroutine and the shared
channels and counter, and one step runs one goroutine up to its next
operation on shared state.  A schedule is the list of the steps taken. -/

/-- A buffered Go channel: the values in the buffer, oldest first, the
capacity given to `make`, and whether `close` has been called. -/
structure Chan (α : Type) where
  buf : List α := []
  cap : Nat := 0
  closed : Bool := false
deriving DecidableEq, Repr

/-- The program point of the main goroutine in `processURLsConcurrently`. -/
inductive MainPC where
  /-- Line 185, before the test `i < config.Concurrency`. -/
  | loopHead (i : Nat)
  /-- Line 187, after `wg.Add(1)` and before `go worker(...)`. -/
  | goWorker (i : Nat)
  /-- Lines 190-193: `rest` is still to be sent; on `[]` the channel is closed. -/
  | feed (rest : List GoString)
  /-- Line 195, before the `go func()`. -/
  | startCloser
  /-- Line 201, receiving from `resultChan`. -/
  | collect
  /-- Line 205, `results` has been returned. -/
  | returned
deriving DecidableEq, Repr

/-- The program point of a `worker` goroutine. -/
inductive WorkerPC where
  /-- Line 229, receiving from `urlChan`. -/
  | recv
  /-- Line 230, calling `checkFirebaseVulnerability(client, baseURL)`. -/
  | check (baseURL : GoString)
  /-- Line 231, sending `result` to `resultChan`. -/
  | send (result : Result)
  /-- The loop is left; the deferred `wg.Done()` of line 223 is next. -/
  | exit
  /-- The goroutine has ended. -/
  | done
deriving DecidableEq, Repr

/-- The program point of the goroutine of lines 195-198. -/
inductive CloserPC where
  | notStarted
  /-- Line 196, in `wg.Wait()`. -/
  | wait
  /-- Line 197, before `close(resultChan)`. -/
  | close
  | done
deriving DecidableEq, Repr

/-- A state of a run of `processURLsConcurrently`. -/
structure Sched where
  uniqueURLs : List GoString := []
  urlChan : Chan GoString := {}
  resultChan : Chan Result := {}
  /-- The counter of the `sync.WaitGroup`. -/
  wg : Nat := 0
  results : List Result := []
  main : MainPC := .loopHead 0
  workers : List WorkerPC := []
  closer : CloserPC := .notStarted
  /-- The text printed so far. -/
  out : Output := []
deriving DecidableEq, Repr

/-- What a goroutine does when it is scheduled: it cannot move (it waits on a
channel or on the wait group, or has ended), it panics, or it moves. -/
inductive Next where
  | blocked
  | panic
  | ok (s : Sched)
deriving DecidableEq, Repr

/-- The state after lines 179-184 of `processURLsConcurrently`. -/
def processURLsConcurrently.init (urls : List GoString) : Sched :=
  let uniqueURLs := removeDuplicates urls
  { uniqueURLs := uniqueURLs,
    urlChan := { cap := uniqueURLs.length },
    resultChan := { cap := uniqueURLs.length } }

/-- One step of the main goroutine of `processURLsConcurrently` (lines 185-205).
A send on a channel whose buffer is full waits; a send on or a close of a
closed channel panics. -/
def processURLsConcurrently.step (config : Config) (s : Sched) : Next :=
  match s.main with
  | .loopHead i =>
    if (i : Int) < config.Concurrency then .ok { s with wg := s.wg + 1, main := .goWorker i }
    else .ok { s with main := .feed s.uniqueURLs }
  | .goWorker i => .ok { s with workers := s.workers ++ [.recv], main := .loopHead (i + 1) }
  | .feed (url :: rest) =>
    if s.urlChan.closed then .panic
    else if s.urlChan.buf.length < s.urlChan.cap then
      .ok { s with urlChan := { s.urlChan with buf := s.urlChan.buf ++ [url] }, main := .feed rest }
    else .blocked
  | .feed [] =>
    if s.urlChan.closed then .panic
    else .ok { s with urlChan := { s.urlChan with closed := true }, main := .startCloser }
  | .startCloser => .ok { s with closer := .wait, main := .collect }
  | .collect =>
    match s.resultChan.buf with
    | result :: rest =>
      .ok { s with resultChan := { s.resultChan with buf := rest },
                   results := s.results ++ [result] }
    | [] => if s.resultChan.closed then .ok { s with main := .returned } else .blocked
  | .returned => .blocked

/-- One step of the `worker` goroutine number `i` (lines 222-233).  `client`
is what the network answers if the step is the call of line 230. -/
def worker.step (L : Lib) (config : Config) (i : Nat) (client : GoString → Probe)
    (s : Sched) : Next :=
  match s.workers[i]? with
  | none => .blocked
  | some .recv =>
    match s.urlChan.buf with
    | baseURL :: rest =>
      .ok { s with urlChan := { s.urlChan with buf := rest },
                   workers := s.workers.set i (.check baseURL) }
    | [] => if s.urlChan.closed then .ok { s with workers := s.workers.set i .exit } else .blocked
  | some (.check baseURL) =>
    .ok { s with out := s.out ++ (checkFirebaseVulnerability L config client baseURL).1,
                 workers := s.workers.set i
                   (.send (checkFirebaseVulnerability L config client baseURL).2) }
  | some (.send result) =>
    if s.resultChan.closed then .panic
    else if s.resultChan.buf.length < s.resultChan.cap then
      .ok { s with resultChan := { s.resultChan with buf := s.resultChan.buf ++ [result] },
                   workers := s.workers.set i .recv }
    else .blocked
  | some .exit =>
    if s.wg = 0 then .panic else .ok { s with wg := s.wg - 1, workers := s.workers.set i .done }
  | some .done => .blocked

/-- One step of the goroutine of lines 195-198: `wg.Wait()`, then
`close(resultChan)`. -/
def closer.step (s : Sched) : Next :=
  match s.closer with
  | .notStarted => .blocked
  | .wait => if s.wg = 0 then .ok { s with closer := .close } else .blocked
  | .close =>
    if s.resultChan.closed then .panic
    else .ok { s with resultChan := { s.resultChan with closed := true }, closer := .done }
  | .done => .blocked

/-- The choice of the Go scheduler and of the network for one step. -/
inductive Action where
  | main
  | worker (i : Nat) (client : GoString → Probe)
  | closer

/-- The step of the goroutine chosen by `a`. -/
def step (L : Lib) (config : Config) (a : Action) (s : Sched) : Next :=
  match a with
  | .main => processURLsConcurrently.step config s
  | .worker i client => worker.step L config i client s
  | .closer => closer.step s

/-- The state reached from `s` by a schedule, `none` if one of its steps
cannot be taken or panics. -/
def exec (L : Lib) (config : Config) : List Action → Sched → Option Sched
  | [], s => some s
  | a :: as, s =>
    match step L config a s with
    | .ok s1 => exec L config as s1
    | _ => none

/-- The states that runs of `processURLsConcurrently(urls)` pass through. -/
def Reachable (L : Lib) (config : Config) (urls : List GoString) (s : Sched) : Prop :=
  ∃ schedule, exec L config schedule (processURLsConcurrently.init urls) = some s

/-- The call `processURLsConcurrently(urls)` can return `results`. -/
def processURLsConcurrently (L : Lib) (config : Config) (urls : List GoString)
    (results : List Result) : Prop :=
  ∃ s, Reachable L config urls s ∧ s.main = .returned ∧ s.results = results

/-- The number of steps a worker at this program point can still take,
the receipt of a target apart. -/
def WorkerPC.weight : WorkerPC → Nat
  | .recv => 2
  | .check _ => 5
  | .send _ => 4
  | .exit => 1
  | .done => 0

/-- A bound on the number of steps that remain from a state. -/
def Sched.measure (config : Config) (s : Sched) : Nat :=
  (match s.main with
    | .loopHead i => 4 * (config.Concurrency.toNat - i) + 5 * s.uniqueURLs.length + 6
    | .goWorker i => 4 * (config.Concurrency.toNat - (i + 1)) + 5 * s.uniqueURLs.length + 9
    | .feed rest => 5 * rest.length + 5
    | .startCloser => 4
    | .collect => 1
    | .returned => 0) +
  (s.workers.map WorkerPC.weight).sum +
  (match s.closer with
    | .notStarted => 0
    | .wait => 2
    | .close => 1
    | .done => 0) +
  4 * s.urlChan.buf.length + s.resultChan.buf.length

/-- The targets held by workers: being checked, or in a result being sent. -/
def held : List WorkerPC → List GoString
  | [] => []
  | .check baseURL :: ws => baseURL :: held ws
  | .send result :: ws => result.URL :: held ws
  | _ :: ws => held ws

/-- The number of workers that have not ended. -/
def live : List WorkerPC → Nat
  | [] => 0
  | .done :: ws => live ws
  | _ :: ws => live ws + 1

/-- The targets that the main goroutine has still to send. -/
def MainPC.unsent (uniqueURLs : List GoString) : MainPC → List GoString
  | .loopHead _ => uniqueURLs
  | .goWorker _ => uniqueURLs
  | .feed rest => rest
  | _ => []

/-- The targets of a state, wherever they are: not yet sent, in `urlChan`,
held by a worker, in `resultChan`, or in `results`. -/
def Sched.targets (s : Sched) : List GoString :=
  s.main.unsent s.uniqueURLs ++ s.urlChan.buf ++ held s.workers ++
    s.resultChan.buf.map Result.URL ++ s.results.map Result.URL

/-! ## The invariant of the worker pool -/

/-- Whether the main goroutine has closed `urlChan`. -/
def MainPC.fed : MainPC → Bool
  | .startCloser => true
  | .collect => true
  | .returned => true
  | _ => false

/-- Whether the main goroutine has started the goroutine of line 195. -/
def MainPC.closerStarted : MainPC → Bool
  | .collect => true
  | .returned => true
  | _ => false

/-- The calls of `wg.Add(1)` whose worker is not started yet. -/
def MainPC.added : MainPC → Nat
  | .goWorker _ => 1
  | _ => 0

/-- The number `n` of workers started, by the program point of the main
goroutine: the loop counter while the loop runs, and afterwards none exactly
when the concurrency is not positive. -/
def MainPC.spawned (config : Config) (n : Nat) : MainPC → Prop
  | .loopHead i => n = i ∧ i ≤ config.Concurrency.toNat
  | .goWorker i => n = i ∧ i < config.Concurrency.toNat
  | _ => (0 < config.Concurrency ↔ n ≠ 0)

/-- What holds in every state of a run of `processURLsConcurrently(urls)`. -/
structure Inv (config : Config) (urls : List GoString) (s : Sched) : Prop where
  unique : s.uniqueURLs = removeDuplicates urls
  urlCap : s.urlChan.cap = (removeDuplicates urls).length
  resultCap : s.resultChan.cap = (removeDuplicates urls).length
  targets : s.targets.Perm (removeDuplicates urls)
  wg : s.wg = live s.workers + s.main.added
  urlClosed : s.urlChan.closed = s.main.fed
  closer : s.closer = .notStarted ↔ s.main.closerStarted = false
  waited : s.closer = .close ∨ s.closer = .done → live s.workers = 0
  resultClosed : s.resultChan.closed = true ↔ s.closer = .done
  spawned : s.main.spawned config s.workers.length
  ended : ∀ w ∈ s.workers, w = .exit ∨ w = .done →
    s.urlChan.closed = true ∧ s.urlChan.buf = []
  returned : s.main = .returned → s.resultChan.closed = true ∧ s.resultChan.buf = []

/-- Every run of `processURLsConcurrently(urls)` comes to the return of the
main goroutine: in a state of a run no step panics, before the return some
goroutine can move, and every step decreases `Sched.measure`, so that no run
is longer than the measure of the first state. -/
def EveryRunReturns (L : Lib) (config : Config) (urls : List GoString) : Prop :=
  ∀ s, Reachable L config urls s →
    (∀ a, step L config a s ≠ .panic) ∧
    (s.main ≠ .returned → ∃ a s1, step L config a s = .ok s1) ∧
    (∀ a s1, step L config a s = .ok s1 → s1.measure config < s.measure config)

/-- A state in which nothing has been taken from `urlChan`: the channel holds
the targets sent so far, in the order sent, and no result exists. -/
def Untouched (s : Sched) : Prop :=
  s.urlChan.buf ++ s.main.unsent s.uniqueURLs = s.uniqueURLs ∧
    s.resultChan.buf = [] ∧ s.results = []

/-- A result that the classifier gives for its own target on some answer of
the network. -/
def Result.isClassification (L : Lib) (config : Config) (r : Result) : Prop :=
  ∃ client, r = (checkFirebaseVulnerability L config client r.URL).2

/-- Every result of a state, collected, in `resultChan` or about to be sent,
is a classification of its target. -/
def Classified (L : Lib) (config : Config) (s : Sched) : Prop :=
  (∀ r ∈ s.results, r.isClassification L config) ∧
    (∀ r ∈ s.resultChan.buf, r.isClassification L config) ∧
    (∀ r, WorkerPC.send r ∈ s.workers → r.isClassification L config)

/-! ## Concrete inputs -/

/-- A network that answers every request with `status` and `body`. -/
def respond (status : Int) (body : GoString) : GoString → Probe :=
  fun _ => .response status body

/-- A normalised target. -/
def sampleTarget : GoString := str "https://abc.firebaseio.com/"

/-- Three results as the classifier produces them: a finding, a failure and
a negative. -/
def sampleResults : List Result :=
  [{ URL := str "https://a.firebaseio.com/", Vulnerable := true, VulnType := str "READ ACCESS" },
   { URL := str "https://b.firebaseio.com/", Error := some (str "timeout") },
   { URL := str "https://c.firebaseio.com/" }]

/-- Three inputs with two distinct targets. -/
def sampleURLs : List GoString :=
  [str "https://a.firebaseio.com/", str "https://b.firebaseio.com/",
   str "https://a.firebaseio.com/"]

/-- A run without workers: the main goroutine passes the loop, sends the
targets, closes `urlChan` and starts the closing goroutine, which finds the
counter at zero and closes `resultChan`; the main goroutine then returns. -/
def idleSchedule : List Action :=
  [.main, .main, .main, .main, .closer, .closer, .main]

/-- A network on which the first sample target answers 200 with `null` and
every other request times out. -/
def sampleNetwork : GoString → Probe :=
  fun url =>
    if url = str "https://a.firebaseio.com/.json" then .response 200 (str "null")
    else .getFailed (str "timeout")

/-- A run with two workers on the two targets of `sampleURLs`, in which the
second target is classified and collected before the first. -/
def sampleSchedule : List Action :=
  [.main, .main, .main, .main, .main, .main, .main, .main, .main,
   .worker 0 sampleNetwork, .worker 1 sampleNetwork,
   .worker 1 sampleNetwork, .worker 1 sampleNetwork,
   .worker 0 sampleNetwork, .worker 0 sampleNetwork,
   .main, .main,
   .worker 0 sampleNetwork, .worker 1 sampleNetwork,
   .worker 0 sampleNetwork, .worker 1 sampleNetwork,
   .closer, .closer, .main]

/-! ## Specification of deduplication (spec, section 4.2) -/

/-- The input with every element deleted that already occurred at an earlier index. -/
def firstOccurrences (urls : List GoString) : List GoString :=
  (urls.enum.filter (fun p => decide (p.2 ∉ urls.take p.1))).map Prod.snd

/-- The elements of `l` that occur neither in `pre` nor earlier in `l`, in order. -/
def keepNew (pre : List GoString) : List GoString → List GoString
  | [] => []
  | x :: xs => if x ∈ pre then keepNew (pre ++ [x]) xs else x :: keepNew (pre ++ [x]) xs

/-- Whether a result counts as a finding of the report: no error and `Vulnerable`. -/
def Result.isFinding (r : Result) : Bool := r.Error.isNone && r.Vulnerable

/-! # Theorems -/

/-! ## Classification -/

theorem str_readAccess_ne : str "READ ACCESS" ≠ str "" := by decide

theorem str_takeover_ne : str "TAKEOVER" ≠ str "" := by decide

theorem str_readAccess_ne_takeover : str "READ ACCESS" ≠ str "TAKEOVER" := by decide

/-- The result of a classification has one of four shapes. -/
theorem checkFirebaseVulnerability_cases (L : Lib) (config : Config)
    (client : GoString → Probe) (baseURL : GoString) :
    (∃ err, (checkFirebaseVulnerability L config client baseURL).2 =
        { URL := baseURL, Error := some err }) ∨
    (checkFirebaseVulnerability L config client baseURL).2 =
        { URL := baseURL, Vulnerable := true, VulnType := str "READ ACCESS" } ∨
    (checkFirebaseVulnerability L config client baseURL).2 =
        { URL := baseURL, Vulnerable := true, VulnType := str "TAKEOVER" } ∨
    (checkFirebaseVulnerability L config client baseURL).2 = { URL := baseURL } := by
  simp only [checkFirebaseVulnerability]
  generalize client (baseURL ++ str ".json") = p
  cases p with
  | getFailed err => exact Or.inl ⟨err, rfl⟩
  | readFailed st err => exact Or.inl ⟨err, rfl⟩
  | response st body =>
    simp only []
    generalize L.jsonUnmarshal body = u
    cases u with
    | error e => by_cases h : st = 200 ∧ body.length > 0 <;> simp [h]
    | ok resp =>
      by_cases he : resp.Error = str "" <;>
        by_cases hc : Contains resp.Error (str "404 Not Found") = true <;> simp [he, hc]

/-- C1: when the body parses into a `FirebaseResponse` with error field `e`,
the result is TAKEOVER if `e` is non-empty and contains "404 Not Found", not
vulnerable if `e` is non-empty without that substring, and READ ACCESS if `e`
is empty, whatever the HTTP status. -/
theorem checkFirebaseVulnerability_parsed (L : Lib) (config : Config)
    (client : GoString → Probe) (baseURL : GoString) (status : Int) (body : GoString)
    (resp : FirebaseResponse)
    (hget : client (baseURL ++ str ".json") = .response status body)
    (hparse : L.jsonUnmarshal body = .ok resp) :
    (resp.Error ≠ str "" → Contains resp.Error (str "404 Not Found") = true →
      (checkFirebaseVulnerability L config client baseURL).2 =
        { URL := baseURL, Vulnerable := true, VulnType := str "TAKEOVER", Error := none }) ∧
    (resp.Error ≠ str "" → Contains resp.Error (str "404 Not Found") = false →
      (checkFirebaseVulnerability L config client baseURL).2 =
        { URL := baseURL, Vulnerable := false, VulnType := str "", Error := none }) ∧
    (resp.Error = str "" →
      (checkFirebaseVulnerability L config client baseURL).2 =
        { URL := baseURL, Vulnerable := true, VulnType := str "READ ACCESS", Error := none }) := by
  refine ⟨?_, ?_, ?_⟩
  · intro h1 h2
    simp [checkFirebaseVulnerability, hget, hparse, h1, h2]
  · intro h1 h2
    simp [checkFirebaseVulnerability, hget, hparse, h1, h2]
    rfl
  · intro h1
    simp [checkFirebaseVulnerability, hget, hparse, h1]

/-- C2: when parsing the body fails, the result is READ ACCESS if and only if
the status is 200 and the body is non-empty, and otherwise the failure
"could not parse response as JSON". -/
theorem checkFirebaseVulnerability_unparsed (L : Lib) (config : Config)
    (client : GoString → Probe) (baseURL : GoString) (status : Int) (body : GoString)
    (err : GoString)
    (hget : client (baseURL ++ str ".json") = .response status body)
    (hparse : L.jsonUnmarshal body = .error err) :
    ((checkFirebaseVulnerability L config client baseURL).2 =
        { URL := baseURL, Vulnerable := true, VulnType := str "READ ACCESS", Error := none } ↔
      status = 200 ∧ body ≠ []) ∧
    (¬ (status = 200 ∧ body ≠ []) →
      (checkFirebaseVulnerability L config client baseURL).2 =
        { URL := baseURL, Vulnerable := false, VulnType := str "",
          Error := some (str "could not parse response as JSON") }) := by
  by_cases h : status = 200 ∧ body ≠ []
  · have hlen : body.length > 0 := List.length_pos.mpr h.2
    simp [checkFirebaseVulnerability, hget, hparse, h, hlen]
  · have hlen : ¬ (status = 200 ∧ body.length > 0) := fun hh => h ⟨hh.1, List.length_pos.mp hh.2⟩
    simp only [checkFirebaseVulnerability, hget, hparse, hlen, if_false]
    simp [h]
    rfl

/-- C3: whatever the probe yields, the result carries the input target and is
in exactly one of the states READ ACCESS, TAKEOVER, not vulnerable, failure;
an error and `Vulnerable` never hold together, and `VulnType` is non-empty
exactly when `Vulnerable` is true. -/
theorem checkFirebaseVulnerability_state (L : Lib) (config : Config)
    (client : GoString → Probe) (baseURL : GoString) :
    (checkFirebaseVulnerability L config client baseURL).2.URL = baseURL ∧
    (((checkFirebaseVulnerability L config client baseURL).2.isReadAccess ∧
        ¬ (checkFirebaseVulnerability L config client baseURL).2.isTakeover ∧
        ¬ (checkFirebaseVulnerability L config client baseURL).2.isNotVulnerable ∧
        ¬ (checkFirebaseVulnerability L config client baseURL).2.isFailure) ∨
     (¬ (checkFirebaseVulnerability L config client baseURL).2.isReadAccess ∧
        (checkFirebaseVulnerability L config client baseURL).2.isTakeover ∧
        ¬ (checkFirebaseVulnerability L config client baseURL).2.isNotVulnerable ∧
        ¬ (checkFirebaseVulnerability L config client baseURL).2.isFailure) ∨
     (¬ (checkFirebaseVulnerability L config client baseURL).2.isReadAccess ∧
        ¬ (checkFirebaseVulnerability L config client baseURL).2.isTakeover ∧
        (checkFirebaseVulnerability L config client baseURL).2.isNotVulnerable ∧
        ¬ (checkFirebaseVulnerability L config client baseURL).2.isFailure) ∨
     (¬ (checkFirebaseVulnerability L config client baseURL).2.isReadAccess ∧
        ¬ (checkFirebaseVulnerability L config client baseURL).2.isTakeover ∧
        ¬ (checkFirebaseVulnerability L config client baseURL).2.isNotVulnerable ∧
        (checkFirebaseVulnerability L config client baseURL).2.isFailure)) ∧
    ¬ ((checkFirebaseVulnerability L config client baseURL).2.Error ≠ none ∧
        (checkFirebaseVulnerability L config client baseURL).2.Vulnerable = true) ∧
    ((checkFirebaseVulnerability L config client baseURL).2.VulnType ≠ str "" ↔
        (checkFirebaseVulnerability L config client baseURL).2.Vulnerable = true) := by
  have h1 := str_readAccess_ne
  have h2 := str_takeover_ne
  have h3 := str_readAccess_ne_takeover
  have h0 : str "" = [] := rfl
  rw [h0] at h1 h2
  simp only [Result.isReadAccess, Result.isTakeover, Result.isNotVulnerable, Result.isFailure]
  rcases checkFirebaseVulnerability_cases L config client baseURL with ⟨err, h⟩ | h | h | h <;>
    rw [h] <;> simp [h0, h1, h2, h3, h3.symm]

/-! ## Deduplication -/

theorem removeDuplicates_loop (l : List GoString) :
    ∀ (seen : GoString → Bool) (unique pre : List GoString),
      (∀ k, seen k = true ↔ k ∈ pre) →
      (l.foldl removeDuplicatesBody (seen, unique)).2 = unique ++ keepNew pre l := by
  induction l with
  | nil => intro seen unique pre _; simp [keepNew]
  | cons x xs ih =>
    intro seen unique pre hseen
    by_cases hx : x ∈ pre
    · have hs : seen x = true := (hseen x).mpr hx
      simp only [List.foldl_cons, removeDuplicatesBody, hs, keepNew, hx, if_true, Bool.not_true,
        Bool.false_eq_true, if_false]
      apply ih
      intro k
      rw [hseen k]
      constructor
      · intro h; exact List.mem_append_left _ h
      · intro h
        rcases List.mem_append.mp h with h | h
        · exact h
        · rw [List.mem_singleton.mp h]; exact hx
    · have hs : seen x = false := by
        cases hsx : seen x with
        | false => rfl
        | true => exact absurd ((hseen x).mp hsx) hx
      simp only [List.foldl_cons, removeDuplicatesBody, hs, keepNew, hx, if_false,
        Bool.not_false, if_true]
      rw [ih _ (unique ++ [x]) (pre ++ [x])]
      · simp
      · intro k
        by_cases hk : k = x
        · simp [hk]
        · simp [hk, hseen k]

theorem mem_keepNew (l : List GoString) :
    ∀ (pre : List GoString) (u : GoString), u ∈ keepNew pre l ↔ u ∈ l ∧ u ∉ pre := by
  induction l with
  | nil => intro pre u; simp [keepNew]
  | cons x xs ih =>
    intro pre u
    by_cases hx : x ∈ pre <;> by_cases hu : u = x
    · subst hu; simp [keepNew, hx, ih]
    · simp [keepNew, hx, hu, ih]
    · subst hu; simp [keepNew, hx, ih]
    · simp [keepNew, hx, hu, ih]

theorem nodup_keepNew (l : List GoString) : ∀ pre : List GoString, (keepNew pre l).Nodup := by
  induction l with
  | nil => intro pre; simp [keepNew]
  | cons x xs ih =>
    intro pre
    by_cases hx : x ∈ pre
    · simp only [keepNew, hx, if_true]; exact ih _
    · simp only [keepNew, hx, if_false]
      refine List.nodup_cons.mpr ⟨?_, ih _⟩
      rw [mem_keepNew]
      simp

theorem keepNew_eq_filter (l : List GoString) :
    ∀ pre : List GoString,
      keepNew pre l =
        ((l.enumFrom pre.length).filter
          (fun p => decide (p.2 ∉ (pre ++ l).take p.1))).map Prod.snd := by
  induction l with
  | nil => intro pre; simp [keepNew]
  | cons x xs ih =>
    intro pre
    have htake : (pre ++ x :: xs).take pre.length = pre := List.take_left' rfl
    have happ : pre ++ x :: xs = (pre ++ [x]) ++ xs := by simp
    have hlen : (pre ++ [x]).length = pre.length + 1 := by simp
    have ih' := ih (pre ++ [x])
    rw [hlen, ← happ] at ih'
    by_cases hx : x ∈ pre
    · simp only [keepNew, hx, if_true, List.enumFrom_cons]
      rw [List.filter_cons_of_neg (by simp [htake, hx])]
      exact ih'
    · simp only [keepNew, hx, if_false, List.enumFrom_cons]
      rw [List.filter_cons_of_pos (by simp [htake, hx])]
      simp only [List.map_cons]
      rw [ih']

/-- C5: `removeDuplicates` returns a list without repetition, with exactly
the elements of the input, equal to the input with every element deleted
that already occurred at an earlier index. -/
theorem removeDuplicates_firstOccurrences (urls : List GoString) :
    (removeDuplicates urls).Nodup ∧
    (∀ u, u ∈ removeDuplicates urls ↔ u ∈ urls) ∧
    removeDuplicates urls = firstOccurrences urls := by
  have h : removeDuplicates urls = keepNew [] urls := by
    unfold removeDuplicates
    rw [removeDuplicates_loop urls (fun _ => false) [] [] (by simp)]
    simp
  refine ⟨h ▸ nodup_keepNew urls [], ?_, ?_⟩
  · intro u
    rw [h, mem_keepNew]
    simp
  · rw [h, keepNew_eq_filter]
    simp [firstOccurrences, List.enum]

/-! ## Normalisation -/

theorem filterFirebaseURLs_loop (L : Lib) (config : Config) (urls : List GoString) :
    ∀ st : Output × List GoString,
      (urls.foldl (filterFirebaseURLsBody L config) st).2 =
      st.2 ++ (urls.map (fun rawURL => (processFirebaseURL L config rawURL).2)).filter
        (fun t => decide (t ≠ str "")) := by
  induction urls with
  | nil => intro st; simp
  | cons x xs ih =>
    intro st
    by_cases h : (processFirebaseURL L config x).2 = str ""
    · simp only [List.foldl_cons, ih, filterFirebaseURLsBody, h, ne_eq, not_true_eq_false,
        if_false, List.map_cons]
      rw [List.filter_cons_of_neg (by simp)]
    · simp only [List.foldl_cons, ih, filterFirebaseURLsBody, h, ne_eq, not_false_eq_true,
        if_true, List.map_cons]
      rw [List.filter_cons_of_pos (by simp [h])]
      simp

theorem filterFirebaseURLs_eq (L : Lib) (config : Config) (urls : List GoString) :
    (filterFirebaseURLs L config urls).2 =
      (urls.map (fun rawURL => (processFirebaseURL L config rawURL).2)).filter
        (fun t => decide (t ≠ str "")) := by
  unfold filterFirebaseURLs
  rw [filterFirebaseURLs_loop]
  simp

/-- C6: an input whose lower-cased form contains ".firebaseio.com" and that
URL parsing accepts is normalised to scheme, "://", host, "/", with the
scheme and host of the parsed URL as they are; no other component of the
parsed URL enters the result. -/
theorem processFirebaseURL_accepted (L : Lib) (config : Config) (rawURL : GoString)
    (parsedURL : URL)
    (hsub : Contains (L.toLower rawURL) (str ".firebaseio.com") = true)
    (hparse : L.urlParse rawURL = .ok parsedURL) :
    (processFirebaseURL L config rawURL).2 =
        parsedURL.Scheme ++ str "://" ++ parsedURL.Host ++ str "/" ∧
    (∀ (other : GoString) (parsedOther : URL),
        Contains (L.toLower other) (str ".firebaseio.com") = true →
        L.urlParse other = .ok parsedOther →
        parsedOther.Scheme = parsedURL.Scheme → parsedOther.Host = parsedURL.Host →
        (processFirebaseURL L config other).2 = (processFirebaseURL L config rawURL).2) := by
  have key : ∀ (r : GoString) (u : URL),
      Contains (L.toLower r) (str ".firebaseio.com") = true → L.urlParse r = .ok u →
      (processFirebaseURL L config r).2 = u.Scheme ++ str "://" ++ u.Host ++ str "/" := by
    intro r u h1 h2
    simp [processFirebaseURL, h1, h2]
  refine ⟨key _ _ hsub hparse, ?_⟩
  intro other parsedOther h1 h2 h3 h4
  rw [key _ _ h1 h2, key _ _ hsub hparse, h3, h4]

/-- C8: an input whose lower-cased form does not contain ".firebaseio.com" is
rejected with the empty string, whatever the verbosity and the outcome of URL
parsing, and an occurrence of it among the collected inputs adds nothing to
the target list of `collectURLs`. -/
theorem processFirebaseURL_rejected (L : Lib) (config : Config) (rawURL : GoString)
    (hsub : Contains (L.toLower rawURL) (str ".firebaseio.com") = false) :
    (processFirebaseURL L config rawURL).2 = str "" ∧
    (∀ (os : OS) (args pre post : List GoString),
        (expandArgs L os config args).2 = pre ++ rawURL :: post →
        (collectURLs L os config args).2 = (filterFirebaseURLs L config (pre ++ post)).2) := by
  have h : (processFirebaseURL L config rawURL).2 = str "" := by
    simp [processFirebaseURL, hsub]
  refine ⟨h, ?_⟩
  intro os args pre post hexp
  simp only [collectURLs, hexp, filterFirebaseURLs_eq, List.map_append, List.map_cons,
    List.filter_append]
  rw [List.filter_cons_of_neg (by simp [h])]

/-! ## Reporting -/

theorem outputJSONResults_loop (results : List Result) :
    ∀ st : List JSONResult × Int,
      (results.foldl outputJSONResultsBody st).2 =
      st.2 + (results.countP Result.isFinding : Nat) := by
  induction results with
  | nil => intro st; simp
  | cons r rs ih =>
    intro st
    rw [List.foldl_cons, ih]
    cases he : r.Error with
    | some err => simp [outputJSONResultsBody, List.countP_cons, Result.isFinding, he]
    | none =>
      cases hv : r.Vulnerable with
      | true => simp [outputJSONResultsBody, List.countP_cons, Result.isFinding, he, hv]; omega
      | false => simp [outputJSONResultsBody, List.countP_cons, Result.isFinding, he, hv]

theorem outputTextResults_loop (config : Config) (results : List Result) :
    ∀ st : TextReport,
      (results.foldl (outputTextResultsBody config) st).vulnerableCount =
      st.vulnerableCount + (results.countP Result.isFinding : Nat) := by
  induction results with
  | nil => intro st; simp
  | cons r rs ih =>
    intro st
    rw [List.foldl_cons, ih]
    cases he : r.Error with
    | some err =>
      cases hverb : config.Verbose <;>
        simp [outputTextResultsBody, List.countP_cons, Result.isFinding, he, hverb]
    | none =>
      cases hv : r.Vulnerable with
      | true => simp [outputTextResultsBody, List.countP_cons, Result.isFinding, he, hv]; omega
      | false =>
        cases hverb : config.Verbose <;>
          simp [outputTextResultsBody, List.countP_cons, Result.isFinding, he, hv, hverb]

/-- The counters of both reporters count the results with no error and
`Vulnerable` true; when no result has both an error and `Vulnerable`, these
are the results with `Vulnerable` true. -/
theorem summary_counts_findings (config : Config) (results : List Result) :
    (outputJSONResults config results).Summary.TotalScanned = results.length ∧
    (outputJSONResults config results).Summary.VulnerableCount =
        results.countP Result.isFinding ∧
    (outputTextResults config results).vulnerableCount = results.countP Result.isFinding ∧
    (config.Verbose = true →
      (outputTextResults config results).out.getLast? =
        some (.stdout, summaryLine (results.countP Result.isFinding) results.length)) ∧
    ((∀ r ∈ results, r.Error ≠ none → r.Vulnerable = false) →
      results.countP Result.isFinding = results.countP (fun r => r.Vulnerable)) := by
  have hj : (outputJSONResults config results).Summary.VulnerableCount =
      results.countP Result.isFinding := by
    simp only [outputJSONResults]
    rw [outputJSONResults_loop]
    simp
  have ht := outputTextResults_loop config results {}
  simp only [zero_add] at ht
  refine ⟨rfl, hj, ?_, ?_, ?_⟩
  · simp only [outputTextResults]
    split
    · exact ht
    · exact ht
  · intro hv
    simp only [outputTextResults, hv, if_true, List.getLast?_append, List.getLast?_singleton]
    rw [ht]
    rfl
  · intro h
    apply List.countP_congr
    intro r hr
    cases he : r.Error with
    | none => simp [Result.isFinding, he]
    | some err =>
      have := h r hr (by simp [he])
      simp [Result.isFinding, he, this]

/-! ## The worker pool -/

theorem held_append (l1 l2 : List WorkerPC) : held (l1 ++ l2) = held l1 ++ held l2 := by
  induction l1 with
  | nil => rfl
  | cons w ws ih => cases w <;> simp [held, ih]

theorem live_append (l1 l2 : List WorkerPC) : live (l1 ++ l2) = live l1 + live l2 := by
  induction l1 with
  | nil => simp [live]
  | cons w ws ih => cases w <;> simp [live, ih] <;> omega

theorem workers_split (ws : List WorkerPC) :
    ∀ (i : Nat) (w : WorkerPC), ws[i]? = some w →
      ∃ l1 l2, ws = l1 ++ w :: l2 ∧ ∀ w1, ws.set i w1 = l1 ++ w1 :: l2 := by
  induction ws with
  | nil => intro i w h; simp at h
  | cons x xs ih =>
    intro i w h
    cases i with
    | zero =>
      simp at h
      exact ⟨[], xs, by simp [h], fun w1 => by simp⟩
    | succ n =>
      simp at h
      obtain ⟨l1, l2, h1, h2⟩ := ih n w h
      exact ⟨x :: l1, l2, by simp [h1], fun w1 => by simp [h2]⟩

theorem checkFirebaseVulnerability_URL (L : Lib) (config : Config)
    (client : GoString → Probe) (baseURL : GoString) :
    (checkFirebaseVulnerability L config client baseURL).2.URL = baseURL := by
  rcases checkFirebaseVulnerability_cases L config client baseURL with ⟨err, h⟩ | h | h | h <;>
    rw [h]

theorem inv_init (config : Config) (urls : List GoString) :
    Inv config urls (processURLsConcurrently.init urls) := by
  constructor <;> simp [processURLsConcurrently.init, Sched.targets, held, live, MainPC.added,
    MainPC.fed, MainPC.closerStarted, MainPC.unsent, MainPC.spawned]

set_option linter.unusedTactic false in
set_option linter.unreachableTactic false in
theorem inv_step_main (config : Config) (urls : List GoString) (s s1 : Sched)
    (hinv : Inv config urls s) (h : processURLsConcurrently.step config s = .ok s1) :
    Inv config urls s1 := by
  obtain ⟨hu, hcu, hcr, ht, hwg, huc, hcl, hwa, hrc, hsp, hen, hre⟩ := hinv
  unfold processURLsConcurrently.step at h
  split at h
  · rename_i i hm
    split at h
    · cases h
      constructor <;>
        simp_all [Sched.targets, MainPC.added, MainPC.fed, MainPC.closerStarted,
          MainPC.unsent, MainPC.spawned]
      all_goals first
        | assumption
        | omega
        | (refine List.Perm.trans ?_ ht
           rw [List.perm_iff_count]
           intro x
           simp [List.count_append, List.count_cons]
           omega)
        | (rintro w (hw | rfl)
           · exact hen w hw
           · simp)
    · cases h
      constructor <;>
        simp_all [Sched.targets, MainPC.added, MainPC.fed, MainPC.closerStarted,
          MainPC.unsent, MainPC.spawned]
      all_goals first
        | assumption
        | omega
        | (refine List.Perm.trans ?_ ht
           rw [List.perm_iff_count]
           intro x
           simp [List.count_append, List.count_cons]
           omega)
        | (rintro w (hw | rfl)
           · exact hen w hw
           · simp)
  · rename_i i hm
    cases h
    constructor <;>
      simp_all [Sched.targets, MainPC.added, MainPC.fed, MainPC.closerStarted,
        MainPC.unsent, MainPC.spawned, live_append, held_append, live, held]
    all_goals first
      | assumption
      | omega
      | (refine List.Perm.trans ?_ ht
         rw [List.perm_iff_count]
         intro x
         simp [List.count_append, List.count_cons]
         omega)
      | (rintro w (hw | rfl)
         · exact hen w hw
         · simp)
  · rename_i url rest hm
    split at h
    · cases h
    · split at h
      · cases h
        constructor <;>
          simp_all [Sched.targets, MainPC.added, MainPC.fed, MainPC.closerStarted,
            MainPC.unsent, MainPC.spawned]
        all_goals first
          | assumption
          | omega
          | (refine List.Perm.trans ?_ ht
             rw [List.perm_iff_count]
             intro x
             simp [List.count_append, List.count_cons]
             omega)
          | (rintro w (hw | rfl)
             · exact hen w hw
             · simp)
      · cases h
  · rename_i hm
    split at h
    · cases h
    · cases h
      constructor <;>
        simp_all [Sched.targets, MainPC.added, MainPC.fed, MainPC.closerStarted,
          MainPC.unsent, MainPC.spawned]
      all_goals first
        | assumption
        | omega
        | (refine List.Perm.trans ?_ ht
           rw [List.perm_iff_count]
           intro x
           simp [List.count_append, List.count_cons]
           omega)
        | (rintro w (hw | rfl)
           · exact hen w hw
           · simp)
  · rename_i hm
    cases h
    constructor <;>
      simp_all [Sched.targets, MainPC.added, MainPC.fed, MainPC.closerStarted,
        MainPC.unsent, MainPC.spawned]
    all_goals first
      | assumption
      | omega
      | (refine List.Perm.trans ?_ ht
         rw [List.perm_iff_count]
         intro x
         simp [List.count_append, List.count_cons]
         omega)
      | (rintro w (hw | rfl)
         · exact hen w hw
         · simp)
  · rename_i hm
    split at h
    · cases h
      constructor <;>
        simp_all [Sched.targets, MainPC.added, MainPC.fed, MainPC.closerStarted,
          MainPC.unsent, MainPC.spawned]
      all_goals first
        | assumption
        | omega
        | (refine List.Perm.trans ?_ ht
           rw [List.perm_iff_count]
           intro x
           simp [List.count_append, List.count_cons]
           omega)
        | (rintro w (hw | rfl)
           · exact hen w hw
           · simp)
    · split at h
      · cases h
        constructor <;>
          simp_all [Sched.targets, MainPC.added, MainPC.fed, MainPC.closerStarted,
            MainPC.unsent, MainPC.spawned]
        all_goals first
          | assumption
          | omega
          | (refine List.Perm.trans ?_ ht
             rw [List.perm_iff_count]
             intro x
             simp [List.count_append, List.count_cons]
             omega)
          | (rintro w (hw | rfl)
             · exact hen w hw
             · simp)
      · cases h
  · cases h

theorem inv_step_worker (L : Lib) (config : Config) (urls : List GoString) (i : Nat)
    (client : GoString → Probe) (s s1 : Sched)
    (hinv : Inv config urls s) (h : worker.step L config i client s = .ok s1) :
    Inv config urls s1 := by
  obtain ⟨hu, hcu, hcr, ht, hwg, huc, hcl, hwa, hrc, hsp, hen, hre⟩ := hinv
  unfold worker.step at h
  split at h
  · cases h
  · rename_i hw
    obtain ⟨l1, l2, hws, hset⟩ := workers_split _ _ _ hw
    rw [hws] at hset
    split at h
    · rename_i baseURL rest hb
      cases h
      refine ⟨hu, hcu, hcr, ?_, ?_, huc, hcl, ?_, hrc, ?_, ?_, hre⟩
      · simp only [Sched.targets, hws, hset, held_append, held, hb] at ht ⊢
        refine List.Perm.trans ?_ ht
        rw [List.perm_iff_count]
        intro x
        simp [List.count_append, List.count_cons]
        omega
      · simp only [hws, hset, live_append, live] at hwg ⊢
        omega
      · intro hc
        have := hwa hc
        simp [hws, live_append, live] at this
      · simpa [List.length_set] using hsp
      · intro w hmem he
        simp only [hws, hset, List.mem_append, List.mem_cons] at hmem
        rcases hmem with h1 | rfl | h2
        · have := hen w (by simp [hws, h1]) he
          simp [hb] at this
        · simp at he
        · have := hen w (by simp [hws, h2]) he
          simp [hb] at this
    · rename_i hb
      split at h
      · rename_i hclosed
        cases h
        refine ⟨hu, hcu, hcr, ?_, ?_, huc, hcl, ?_, hrc, ?_, ?_, hre⟩
        · simp only [Sched.targets, hws, hset, held_append, held] at ht ⊢
          exact ht
        · simp only [hws, hset, live_append, live] at hwg ⊢
          omega
        · intro hc
          have := hwa hc
          simp [hws, live_append, live] at this
        · simpa [List.length_set] using hsp
        · intro w hmem he
          simp only [hws, hset, List.mem_append, List.mem_cons] at hmem
          rcases hmem with h1 | rfl | h2
          · exact hen w (by simp [hws, h1]) he
          · exact ⟨hclosed, hb⟩
          · exact hen w (by simp [hws, h2]) he
      · cases h
  · rename_i baseURL hw
    obtain ⟨l1, l2, hws, hset⟩ := workers_split _ _ _ hw
    rw [hws] at hset
    cases h
    refine ⟨hu, hcu, hcr, ?_, ?_, huc, hcl, ?_, hrc, ?_, ?_, hre⟩
    · simp only [Sched.targets, hws, hset, held_append, held,
        checkFirebaseVulnerability_URL] at ht ⊢
      exact ht
    · simp only [hws, hset, live_append, live] at hwg ⊢
      omega
    · intro hc
      have := hwa hc
      simp [hws, live_append, live] at this
    · simpa [List.length_set] using hsp
    · intro w hmem he
      simp only [hws, hset, List.mem_append, List.mem_cons] at hmem
      rcases hmem with h1 | rfl | h2
      · exact hen w (by simp [hws, h1]) he
      · simp at he
      · exact hen w (by simp [hws, h2]) he
  · rename_i result hw
    obtain ⟨l1, l2, hws, hset⟩ := workers_split _ _ _ hw
    rw [hws] at hset
    split at h
    · cases h
    · rename_i hopen
      split at h
      · cases h
        refine ⟨hu, hcu, hcr, ?_, ?_, huc, hcl, ?_, hrc, ?_, ?_, ?_⟩
        · simp only [Sched.targets, hws, hset, held_append, held, List.map_append, List.map_cons,
            List.map_nil] at ht ⊢
          refine List.Perm.trans ?_ ht
          rw [List.perm_iff_count]
          intro x
          simp [List.count_append, List.count_cons]
          omega
        · simp only [hws, hset, live_append, live] at hwg ⊢
          omega
        · intro hc
          have := hwa hc
          simp [hws, live_append, live] at this
        · simpa [List.length_set] using hsp
        · intro w hmem he
          simp only [hws, hset, List.mem_append, List.mem_cons] at hmem
          rcases hmem with h1 | rfl | h2
          · exact hen w (by simp [hws, h1]) he
          · simp at he
          · exact hen w (by simp [hws, h2]) he
        · intro hm
          exact absurd (hre hm).1 hopen
      · cases h
  · rename_i hw
    obtain ⟨l1, l2, hws, hset⟩ := workers_split _ _ _ hw
    rw [hws] at hset
    split at h
    · cases h
    · rename_i hpos
      cases h
      refine ⟨hu, hcu, hcr, ?_, ?_, huc, hcl, ?_, hrc, ?_, ?_, hre⟩
      · simp only [Sched.targets, hws, hset, held_append, held] at ht ⊢
        exact ht
      · simp only [hws, hset, live_append, live] at hwg ⊢
        omega
      · intro hc
        have := hwa hc
        simp [hws, live_append, live] at this
      · simpa [List.length_set] using hsp
      · intro w hmem he
        simp only [hws, hset, List.mem_append, List.mem_cons] at hmem
        rcases hmem with h1 | rfl | h2
        · exact hen w (by simp [hws, h1]) he
        · exact hen .exit (by simp [hws]) (Or.inl rfl)
        · exact hen w (by simp [hws, h2]) he
  · cases h

theorem inv_step_closer (config : Config) (urls : List GoString) (s s1 : Sched)
    (hinv : Inv config urls s) (h : closer.step s = .ok s1) : Inv config urls s1 := by
  obtain ⟨hu, hcu, hcr, ht, hwg, huc, hcl, hwa, hrc, hsp, hen, hre⟩ := hinv
  unfold closer.step at h
  split at h
  · cases h
  · rename_i hc
    split at h
    · rename_i hz
      cases h
      refine ⟨hu, hcu, hcr, ht, hwg, huc, ?_, ?_, ?_, hsp, hen, hre⟩
      · simpa [hc] using hcl
      · intro _
        show live s.workers = 0
        omega
      · simpa [hc] using hrc
    · cases h
  · rename_i hc
    split at h
    · cases h
    · rename_i hopen
      cases h
      refine ⟨hu, hcu, hcr, ht, hwg, huc, ?_, ?_, ?_, hsp, hen, ?_⟩
      · simpa [hc] using hcl
      · intro _
        exact hwa (Or.inl hc)
      · simp
      · intro hm
        exact absurd (hre hm).1 hopen
  · cases h

theorem inv_step (L : Lib) (config : Config) (urls : List GoString) (a : Action)
    (s s1 : Sched) (hinv : Inv config urls s) (h : step L config a s = .ok s1) :
    Inv config urls s1 := by
  cases a with
  | main => exact inv_step_main config urls s s1 hinv h
  | worker i client => exact inv_step_worker L config urls i client s s1 hinv h
  | closer => exact inv_step_closer config urls s s1 hinv h

theorem inv_exec (L : Lib) (config : Config) (urls : List GoString) (schedule : List Action) :
    ∀ s s1 : Sched, Inv config urls s → exec L config schedule s = some s1 →
      Inv config urls s1 := by
  induction schedule with
  | nil =>
    intro s s1 hinv h
    simp only [exec, Option.some.injEq] at h
    exact h ▸ hinv
  | cons a as ih =>
    intro s s1 hinv h
    simp only [exec] at h
    split at h
    · rename_i s2 hs
      exact ih s2 s1 (inv_step L config urls a s s2 hinv hs) h
    · cases h

theorem inv_reachable (L : Lib) (config : Config) (urls : List GoString) (s : Sched)
    (h : Reachable L config urls s) : Inv config urls s := by
  obtain ⟨schedule, hs⟩ := h
  exact inv_exec L config urls schedule _ s (inv_init config urls) hs

/-- Every step brings a run closer to its end. -/
theorem measure_step (L : Lib) (config : Config) (a : Action) (s s1 : Sched)
    (h : step L config a s = .ok s1) : s1.measure config < s.measure config := by
  cases a with
  | main =>
    simp only [step, processURLsConcurrently.step] at h
    split at h
    · rename_i i hm
      split at h
      · cases h
        simp only [Sched.measure, hm]
        omega
      · cases h
        simp only [Sched.measure, hm]
        omega
    · rename_i i hm
      cases h
      simp only [Sched.measure, hm, List.map_append, List.sum_append, List.map_cons,
        List.map_nil, List.sum_cons, List.sum_nil, WorkerPC.weight]
      omega
    · rename_i url rest hm
      split at h
      · cases h
      · split at h
        · cases h
          simp only [Sched.measure, hm, List.length_append, List.length_cons, List.length_nil]
          omega
        · cases h
    · rename_i hm
      split at h
      · cases h
      · cases h
        simp only [Sched.measure, hm, List.length_nil]
        omega
    · rename_i hm
      cases h
      simp only [Sched.measure, hm]
      cases s.closer <;> simp <;> omega
    · rename_i hm
      split at h
      · rename_i r rest hb
        cases h
        simp only [Sched.measure, hm, hb, List.length_cons]
        omega
      · split at h
        · cases h
          simp only [Sched.measure, hm]
          omega
        · cases h
    · cases h
  | worker i client =>
    simp only [step, worker.step] at h
    split at h
    · cases h
    · rename_i hw
      obtain ⟨l1, l2, hws, hset⟩ := workers_split _ _ _ hw
      rw [hws] at hset
      split at h
      · rename_i baseURL rest hb
        cases h
        simp only [Sched.measure, hws, hset, hb, List.map_append, List.sum_append, List.map_cons,
          List.sum_cons, WorkerPC.weight, List.length_cons]
        omega
      · split at h
        · cases h
          simp only [Sched.measure, hws, hset, List.map_append, List.sum_append, List.map_cons,
            List.sum_cons, WorkerPC.weight]
          omega
        · cases h
    · rename_i baseURL hw
      obtain ⟨l1, l2, hws, hset⟩ := workers_split _ _ _ hw
      rw [hws] at hset
      cases h
      simp only [Sched.measure, hws, hset, List.map_append, List.sum_append, List.map_cons,
        List.sum_cons, WorkerPC.weight]
      omega
    · rename_i result hw
      obtain ⟨l1, l2, hws, hset⟩ := workers_split _ _ _ hw
      rw [hws] at hset
      split at h
      · cases h
      · split at h
        · cases h
          simp only [Sched.measure, hws, hset, List.map_append, List.sum_append, List.map_cons,
            List.sum_cons, WorkerPC.weight, List.length_append, List.length_cons,
            List.length_nil]
          omega
        · cases h
    · rename_i hw
      obtain ⟨l1, l2, hws, hset⟩ := workers_split _ _ _ hw
      rw [hws] at hset
      split at h
      · cases h
      · cases h
        simp only [Sched.measure, hws, hset, List.map_append, List.sum_append, List.map_cons,
          List.sum_cons, WorkerPC.weight]
        omega
    · cases h
  | closer =>
    simp only [step, closer.step] at h
    split at h
    · cases h
    · rename_i hc
      split at h
      · cases h
        simp only [Sched.measure, hc]
        omega
      · cases h
    · rename_i hc
      split at h
      · cases h
      · cases h
        simp only [Sched.measure, hc]
        omega
    · cases h

theorem live_pos (ws : List WorkerPC) (h : 0 < live ws) :
    ∃ (i : Nat) (w : WorkerPC), ws[i]? = some w ∧ w ≠ WorkerPC.done := by
  induction ws with
  | nil => simp [live] at h
  | cons x xs ih =>
    by_cases hx : x = .done
    · subst hx
      simp only [live] at h
      obtain ⟨i, w, h1, h2⟩ := ih h
      exact ⟨i + 1, w, by simpa using h1, h2⟩
    · exact ⟨0, x, by simp, hx⟩

theorem live_zero (ws : List WorkerPC) (h : live ws = 0) : ∀ w ∈ ws, w = .done := by
  induction ws with
  | nil => simp
  | cons x xs ih =>
    cases x <;> simp [live] at h
    intro w hw
    rcases List.mem_cons.mp hw with rfl | hw
    · rfl
    · exact ih h w hw

theorem held_done (ws : List WorkerPC) (h : ∀ w ∈ ws, w = .done) : held ws = [] := by
  induction ws with
  | nil => rfl
  | cons x xs ih =>
    have hx : x = .done := h x (by simp)
    subst hx
    simp only [held]
    exact ih (fun w hw => h w (by simp [hw]))

/-- No step of a state of a run panics. -/
theorem no_panic (L : Lib) (config : Config) (urls : List GoString) (a : Action) (s : Sched)
    (hinv : Inv config urls s) : step L config a s ≠ .panic := by
  obtain ⟨hu, hcu, hcr, ht, hwg, huc, hcl, hwa, hrc, hsp, hen, hre⟩ := hinv
  intro h
  cases a with
  | main =>
    simp only [step, processURLsConcurrently.step] at h
    split at h
    · split at h <;> cases h
    · cases h
    · rename_i url rest hm
      simp [hm, MainPC.fed] at huc
      simp [huc] at h
      split at h <;> cases h
    · rename_i hm
      simp [hm, MainPC.fed] at huc
      simp [huc] at h
    · cases h
    · split at h
      · cases h
      · split at h <;> cases h
    · cases h
  | worker i client =>
    simp only [step, worker.step] at h
    split at h
    · cases h
    · split at h
      · cases h
      · split at h <;> cases h
    · cases h
    · rename_i result hw
      obtain ⟨l1, l2, hws, hset⟩ := workers_split _ _ _ hw
      split at h
      · rename_i hclosed
        have := hwa (Or.inr (hrc.mp hclosed))
        simp [hws, live_append, live] at this
      · split at h <;> cases h
    · rename_i hw
      obtain ⟨l1, l2, hws, hset⟩ := workers_split _ _ _ hw
      split at h
      · rename_i hz
        simp [hws, live_append, live] at hwg
        omega
      · cases h
    · cases h
  | closer =>
    simp only [step, closer.step] at h
    split at h
    · cases h
    · split at h <;> cases h
    · rename_i hc
      split at h
      · rename_i hclosed
        have := hrc.mp hclosed
        rw [hc] at this
        cases this
      · cases h
    · cases h

/-- A state of a run from which the main goroutine has not returned has a
goroutine that can move. -/
theorem progress (L : Lib) (config : Config) (urls : List GoString) (s : Sched)
    (hinv : Inv config urls s) (hmain : s.main ≠ .returned) :
    ∃ a s1, step L config a s = .ok s1 := by
  obtain ⟨hu, hcu, hcr, ht, hwg, huc, hcl, hwa, hrc, hsp, hen, hre⟩ := hinv
  have hlen := ht.length_eq
  simp only [Sched.targets, List.length_append, List.length_map] at hlen
  cases hm : s.main with
  | loopHead i =>
    by_cases hlt : (i : Int) < config.Concurrency
    · exact ⟨.main, _, by simp only [step, processURLsConcurrently.step, hm, hlt, if_true]; rfl⟩
    · exact ⟨.main, _, by simp only [step, processURLsConcurrently.step, hm, hlt, if_false]; rfl⟩
  | goWorker i => exact ⟨.main, _, by simp only [step, processURLsConcurrently.step, hm]; rfl⟩
  | feed rest =>
    have hopen : s.urlChan.closed = false := by simpa [hm, MainPC.fed] using huc
    cases rest with
    | nil => exact ⟨.main, _, by simp [step, processURLsConcurrently.step, hm, hopen]; rfl⟩
    | cons url rest =>
      have hroom : s.urlChan.buf.length < s.urlChan.cap := by
        simp only [hm, MainPC.unsent, List.length_cons] at hlen
        omega
      exact ⟨.main, _, by simp [step, processURLsConcurrently.step, hm, hopen, hroom]; rfl⟩
  | startCloser => exact ⟨.main, _, by simp only [step, processURLsConcurrently.step, hm]; rfl⟩
  | returned => exact absurd hm hmain
  | collect =>
    cases hb : s.resultChan.buf with
    | cons r rest => exact ⟨.main, _, by simp only [step, processURLsConcurrently.step, hm, hb]; rfl⟩
    | nil =>
      by_cases hclosed : s.resultChan.closed = true
      · exact ⟨.main, _, by simp [step, processURLsConcurrently.step, hm, hb, hclosed]; rfl⟩
      · have hstarted : s.closer ≠ .notStarted := by
          intro hc
          have := hcl.mp hc
          simp [hm, MainPC.closerStarted] at this
        have hnotdone : s.closer ≠ .done := fun hc => hclosed (hrc.mpr hc)
        cases hc : s.closer with
        | notStarted => exact absurd hc hstarted
        | done => exact absurd hc hnotdone
        | close => exact ⟨.closer, _, by simp [step, closer.step, hc, hclosed]; rfl⟩
        | wait =>
          by_cases hz : s.wg = 0
          · exact ⟨.closer, _, by simp [step, closer.step, hc, hz]; rfl⟩
          · have hlive : 0 < live s.workers := by
              simp only [hm, MainPC.added] at hwg
              omega
            obtain ⟨i, w, hw, hwd⟩ := live_pos s.workers hlive
            have hfed : s.urlChan.closed = true := by simpa [hm, MainPC.fed] using huc
            cases w with
            | done => exact absurd rfl hwd
            | recv =>
              cases hub : s.urlChan.buf with
              | cons u rest =>
                exact ⟨.worker i (fun _ => .getFailed []), _, by simp only [step, worker.step, hw, hub]; rfl⟩
              | nil =>
                exact ⟨.worker i (fun _ => .getFailed []), _, by simp [step, worker.step, hw, hub, hfed]; rfl⟩
            | check u =>
              exact ⟨.worker i (fun _ => .getFailed []), _, by simp only [step, worker.step, hw]; rfl⟩
            | send r =>
              obtain ⟨l1, l2, hws, _⟩ := workers_split _ _ _ hw
              have hroom : s.resultChan.buf.length < s.resultChan.cap := by
                simp only [hws, held_append, held, List.length_append, List.length_cons,
                  hb, List.length_nil] at hlen
                rw [hb]
                simp only [List.length_nil]
                omega
              exact ⟨.worker i (fun _ => .getFailed []), _, by simp [step, worker.step, hw, hclosed, hroom]; rfl⟩
            | exit =>
              exact ⟨.worker i (fun _ => .getFailed []), _, by simp [step, worker.step, hw, hz]; rfl⟩

/-- From every state of a run some schedule leads the main goroutine to its return. -/
theorem can_return (L : Lib) (config : Config) (urls : List GoString) :
    ∀ (n : Nat) (s : Sched), s.measure config ≤ n → Inv config urls s →
      ∃ schedule s1, exec L config schedule s = some s1 ∧ s1.main = .returned := by
  intro n
  induction n with
  | zero =>
    intro s hn hinv
    by_cases hmain : s.main = .returned
    · exact ⟨[], s, rfl, hmain⟩
    · obtain ⟨a, s1, h1⟩ := progress L config urls s hinv hmain
      have := measure_step L config a s s1 h1
      omega
  | succ n ih =>
    intro s hn hinv
    by_cases hmain : s.main = .returned
    · exact ⟨[], s, rfl, hmain⟩
    · obtain ⟨a, s1, h1⟩ := progress L config urls s hinv hmain
      have hlt := measure_step L config a s s1 h1
      obtain ⟨schedule, s2, h2, h3⟩ :=
        ih s1 (by omega) (inv_step L config urls a s s1 hinv h1)
      exact ⟨a :: schedule, s2, by simp only [exec, h1, h2], h3⟩

/-- With a positive concurrency, the results at the return are those of the
targets, each once. -/
theorem returned_results (config : Config) (urls : List GoString) (s : Sched)
    (hinv : Inv config urls s) (hC : 0 < config.Concurrency) (hmain : s.main = .returned) :
    (s.results.map Result.URL).Perm (removeDuplicates urls) := by
  obtain ⟨hu, hcu, hcr, ht, hwg, huc, hcl, hwa, hrc, hsp, hen, hre⟩ := hinv
  obtain ⟨hclosed, hbuf⟩ := hre hmain
  have hlive := hwa (Or.inr (hrc.mp hclosed))
  have hdone := live_zero s.workers hlive
  have hheld := held_done s.workers hdone
  have hne : s.workers.length ≠ 0 := by
    simp only [hmain, MainPC.spawned] at hsp
    exact hsp.mp hC
  have hurl : s.urlChan.buf = [] := by
    cases hws : s.workers with
    | nil => simp [hws] at hne
    | cons w ws =>
      have hw : w ∈ s.workers := by simp [hws]
      exact (hen w hw (Or.inr (hdone w hw))).2
  simpa [Sched.targets, hmain, MainPC.unsent, hurl, hheld, hbuf] using ht

theorem everyRunReturns (L : Lib) (config : Config) (urls : List GoString) :
    EveryRunReturns L config urls := by
  intro s hs
  have hinv := inv_reachable L config urls s hs
  exact ⟨fun a => no_panic L config urls a s hinv,
    fun hmain => progress L config urls s hinv hmain,
    fun a s1 h => measure_step L config a s s1 h⟩

theorem can_return_init (L : Lib) (config : Config) (urls : List GoString) :
    ∃ results, processURLsConcurrently L config urls results := by
  obtain ⟨schedule, s1, h1, h2⟩ :=
    can_return L config urls _ (processURLsConcurrently.init urls) (Nat.le_refl _)
      (inv_init config urls)
  exact ⟨s1.results, s1, ⟨schedule, h1⟩, h2, rfl⟩

theorem no_workers (config : Config) (urls : List GoString) (s : Sched)
    (hinv : Inv config urls s) (hC : config.Concurrency ≤ 0) : s.workers = [] := by
  have hsp := hinv.spawned
  apply List.length_eq_zero.mp
  cases hm : s.main <;> simp only [hm, MainPC.spawned] at hsp <;> omega

theorem untouched_step (L : Lib) (config : Config) (urls : List GoString) (a : Action)
    (s s1 : Sched) (hinv : Inv config urls s) (hC : config.Concurrency ≤ 0)
    (hun : Untouched s) (h : step L config a s = .ok s1) : Untouched s1 := by
  have hws := no_workers config urls s hinv hC
  obtain ⟨h1, h2, h3⟩ := hun
  cases a with
  | main =>
    simp only [step, processURLsConcurrently.step] at h
    split at h
    · rename_i i hm
      split at h
      · cases h
        simpa [Untouched, hm, MainPC.unsent, h2, h3] using h1
      · cases h
        simpa [Untouched, hm, MainPC.unsent, h2, h3] using h1
    · rename_i i hm
      cases h
      simpa [Untouched, hm, MainPC.unsent, h2, h3] using h1
    · rename_i url rest hm
      split at h
      · cases h
      · split at h
        · cases h
          simpa [Untouched, hm, MainPC.unsent, h2, h3] using h1
        · cases h
    · rename_i hm
      split at h
      · cases h
      · cases h
        simpa [Untouched, hm, MainPC.unsent, h2, h3] using h1
    · rename_i hm
      cases h
      simpa [Untouched, hm, MainPC.unsent, h2, h3] using h1
    · rename_i hm
      split at h
      · rename_i r rest hb
        rw [h2] at hb
        cases hb
      · split at h
        · cases h
          simpa [Untouched, hm, MainPC.unsent, h2, h3] using h1
        · cases h
    · cases h
  | worker i client =>
    simp [step, worker.step, hws] at h
  | closer =>
    simp only [step, closer.step] at h
    split at h
    · cases h
    · split at h
      · cases h
        exact ⟨h1, h2, h3⟩
      · cases h
    · split at h
      · cases h
      · cases h
        exact ⟨h1, h2, h3⟩
    · cases h

theorem untouched_exec (L : Lib) (config : Config) (urls : List GoString)
    (hC : config.Concurrency ≤ 0) (schedule : List Action) :
    ∀ s s1 : Sched, Inv config urls s → Untouched s → exec L config schedule s = some s1 →
      Untouched s1 := by
  induction schedule with
  | nil =>
    intro s s1 _ hun h
    simp only [exec, Option.some.injEq] at h
    exact h ▸ hun
  | cons a as ih =>
    intro s s1 hinv hun h
    simp only [exec] at h
    split at h
    · rename_i s2 hs
      exact ih s2 s1 (inv_step L config urls a s s2 hinv hs)
        (untouched_step L config urls a s s2 hinv hC hun hs) h
    · cases h

theorem untouched_reachable (L : Lib) (config : Config) (urls : List GoString)
    (hC : config.Concurrency ≤ 0) (s : Sched) (h : Reachable L config urls s) :
    Untouched s := by
  obtain ⟨schedule, hs⟩ := h
  refine untouched_exec L config urls hC schedule _ s (inv_init config urls) ?_ hs
  simp [Untouched, processURLsConcurrently.init, MainPC.unsent]

theorem classified_step (L : Lib) (config : Config) (a : Action) (s s1 : Sched)
    (hcl : Classified L config s) (h : step L config a s = .ok s1) :
    Classified L config s1 := by
  obtain ⟨h1, h2, h3⟩ := hcl
  cases a with
  | main =>
    simp only [step, processURLsConcurrently.step] at h
    split at h
    · split at h
      · cases h
        exact ⟨h1, h2, h3⟩
      · cases h
        exact ⟨h1, h2, h3⟩
    · cases h
      refine ⟨h1, h2, ?_⟩
      intro r hr
      simp only [List.mem_append, List.mem_singleton] at hr
      rcases hr with hr | hr
      · exact h3 r hr
      · cases hr
    · split at h
      · cases h
      · split at h
        · cases h
          exact ⟨h1, h2, h3⟩
        · cases h
    · split at h
      · cases h
      · cases h
        exact ⟨h1, h2, h3⟩
    · cases h
      exact ⟨h1, h2, h3⟩
    · split at h
      · rename_i r rest hb
        cases h
        refine ⟨?_, ?_, h3⟩
        · intro r1 hr1
          simp only [List.mem_append, List.mem_singleton] at hr1
          rcases hr1 with hr1 | rfl
          · exact h1 r1 hr1
          · exact h2 r1 (by simp [hb])
        · intro r1 hr1
          exact h2 r1 (by simp [hb, hr1])
      · split at h
        · cases h
          exact ⟨h1, h2, h3⟩
        · cases h
    · cases h
  | worker i client =>
    simp only [step, worker.step] at h
    split at h
    · cases h
    · rename_i hw
      obtain ⟨l1, l2, hws, hset⟩ := workers_split _ _ _ hw
      have hold : ∀ r, WorkerPC.send r ∈ l1 ∨ WorkerPC.send r ∈ l2 →
          r.isClassification L config := by
        intro r hr
        exact h3 r (by rw [hws]; simp only [List.mem_append, List.mem_cons]; tauto)
      split at h
      · cases h
        refine ⟨h1, h2, ?_⟩
        intro r hr
        simp only [hset, List.mem_append, List.mem_cons] at hr
        rcases hr with hr | hr | hr
        · exact hold r (Or.inl hr)
        · cases hr
        · exact hold r (Or.inr hr)
      · split at h
        · cases h
          refine ⟨h1, h2, ?_⟩
          intro r hr
          simp only [hset, List.mem_append, List.mem_cons] at hr
          rcases hr with hr | hr | hr
          · exact hold r (Or.inl hr)
          · cases hr
          · exact hold r (Or.inr hr)
        · cases h
    · rename_i baseURL hw
      obtain ⟨l1, l2, hws, hset⟩ := workers_split _ _ _ hw
      have hold : ∀ r, WorkerPC.send r ∈ l1 ∨ WorkerPC.send r ∈ l2 →
          r.isClassification L config := by
        intro r hr
        exact h3 r (by rw [hws]; simp only [List.mem_append, List.mem_cons]; tauto)
      cases h
      refine ⟨h1, h2, ?_⟩
      intro r hr
      simp only [hset, List.mem_append, List.mem_cons] at hr
      rcases hr with hr | hr | hr
      · exact hold r (Or.inl hr)
      · cases hr
        exact ⟨client, by rw [checkFirebaseVulnerability_URL]⟩
      · exact hold r (Or.inr hr)
    · rename_i result hw
      obtain ⟨l1, l2, hws, hset⟩ := workers_split _ _ _ hw
      have hold : ∀ r, WorkerPC.send r ∈ l1 ∨ WorkerPC.send r ∈ l2 →
          r.isClassification L config := by
        intro r hr
        exact h3 r (by rw [hws]; simp only [List.mem_append, List.mem_cons]; tauto)
      have hres : result.isClassification L config := h3 result (by rw [hws]; simp)
      split at h
      · cases h
      · split at h
        · cases h
          refine ⟨h1, ?_, ?_⟩
          · intro r hr
            simp only [List.mem_append, List.mem_singleton] at hr
            rcases hr with hr | rfl
            · exact h2 r hr
            · exact hres
          · intro r hr
            simp only [hset, List.mem_append, List.mem_cons] at hr
            rcases hr with hr | hr | hr
            · exact hold r (Or.inl hr)
            · cases hr
            · exact hold r (Or.inr hr)
        · cases h
    · rename_i hw
      obtain ⟨l1, l2, hws, hset⟩ := workers_split _ _ _ hw
      have hold : ∀ r, WorkerPC.send r ∈ l1 ∨ WorkerPC.send r ∈ l2 →
          r.isClassification L config := by
        intro r hr
        exact h3 r (by rw [hws]; simp only [List.mem_append, List.mem_cons]; tauto)
      split at h
      · cases h
      · cases h
        refine ⟨h1, h2, ?_⟩
        intro r hr
        simp only [hset, List.mem_append, List.mem_cons] at hr
        rcases hr with hr | hr | hr
        · exact hold r (Or.inl hr)
        · cases hr
        · exact hold r (Or.inr hr)
    · cases h
  | closer =>
    simp only [step, closer.step] at h
    split at h
    · cases h
    · split at h
      · cases h
        exact ⟨h1, h2, h3⟩
      · cases h
    · split at h
      · cases h
      · cases h
        exact ⟨h1, h2, h3⟩
    · cases h

theorem classified_exec (L : Lib) (config : Config) (schedule : List Action) :
    ∀ s s1 : Sched, Classified L config s → exec L config schedule s = some s1 →
      Classified L config s1 := by
  induction schedule with
  | nil =>
    intro s s1 hcl h
    simp only [exec, Option.some.injEq] at h
    exact h ▸ hcl
  | cons a as ih =>
    intro s s1 hcl h
    simp only [exec] at h
    split at h
    · rename_i s2 hs
      exact ih s2 s1 (classified_step L config a s s2 hcl hs) h
    · cases h

theorem classified_reachable (L : Lib) (config : Config) (urls : List GoString) (s : Sched)
    (h : Reachable L config urls s) : Classified L config s := by
  obtain ⟨schedule, hs⟩ := h
  refine classified_exec L config schedule _ s ?_ hs
  simp [Classified, processURLsConcurrently.init]


/-- C4 as amended: with a concurrency of at least 1, every run of
`processURLsConcurrently` comes to its return, and the results returned are
as many as the deduplicated targets, their URLs being a permutation of
`removeDuplicates urls`, each result a classification of its target. -/
theorem processURLsConcurrently_each_target_once (L : Lib) (config : Config)
    (urls : List GoString) (hC : 1 ≤ config.Concurrency) :
    EveryRunReturns L config urls ∧
    (∃ results, processURLsConcurrently L config urls results) ∧
    (∀ results, processURLsConcurrently L config urls results →
      results.length = (removeDuplicates urls).length ∧
      (results.map Result.URL).Perm (removeDuplicates urls) ∧
      ∀ r ∈ results, r.isClassification L config) := by
  refine ⟨everyRunReturns L config urls, can_return_init L config urls, ?_⟩
  rintro results ⟨s, hs, hmain, rfl⟩
  have hperm := returned_results config urls s (inv_reachable L config urls s hs)
    (by omega) hmain
  refine ⟨?_, hperm, (classified_reachable L config urls s hs).1⟩
  have := hperm.length_eq
  simpa using this

/-- C10: with a concurrency of zero or less no worker is started in any
state of a run, the targets sent stay in `urlChan`, no result is produced,
and every run comes to its return, where the results are empty. -/
theorem processURLsConcurrently_no_worker (L : Lib) (config : Config)
    (urls : List GoString) (hC : config.Concurrency ≤ 0) :
    (∀ s, Reachable L config urls s →
      s.workers = [] ∧
      s.urlChan.buf ++ s.main.unsent (removeDuplicates urls) = removeDuplicates urls ∧
      s.resultChan.buf = [] ∧ s.results = [] ∧
      (s.main = .returned → s.urlChan.buf = removeDuplicates urls)) ∧
    EveryRunReturns L config urls ∧
    processURLsConcurrently L config urls [] ∧
    (∀ results, processURLsConcurrently L config urls results → results = []) := by
  have hall : ∀ results, processURLsConcurrently L config urls results → results = [] := by
    rintro results ⟨s, hs, _, rfl⟩
    exact (untouched_reachable L config urls hC s hs).2.2
  refine ⟨?_, everyRunReturns L config urls, ?_, hall⟩
  · intro s hs
    have hinv := inv_reachable L config urls s hs
    obtain ⟨h1, h2, h3⟩ := untouched_reachable L config urls hC s hs
    rw [hinv.unique] at h1
    refine ⟨no_workers config urls s hinv hC, h1, h2, h3, ?_⟩
    intro hm
    simpa [hm, MainPC.unsent] using h1
  · obtain ⟨results, hr⟩ := can_return_init L config urls
    have := hall results hr
    exact this ▸ hr

theorem classification_error (L : Lib) (config : Config) (r : Result)
    (h : r.isClassification L config) : r.Error ≠ none → r.Vulnerable = false := by
  obtain ⟨client, hr⟩ := h
  intro he
  rcases checkFirebaseVulnerability_cases L config client r.URL with ⟨err, h⟩ | h | h | h
  · rw [h] at hr
    exact congrArg Result.Vulnerable hr
  · rw [h] at hr
    exact absurd (congrArg Result.Error hr) he
  · rw [h] at hr
    exact absurd (congrArg Result.Error hr) he
  · rw [h] at hr
    exact congrArg Result.Vulnerable hr

/-- C9: the total scanned is the number of results; for every sequence of
results in which no result has both an error and `Vulnerable` true, the
vulnerable count of the JSON summary and the count of the text summary line
are the number of results whose `Vulnerable` flag is true; and every sequence
that `processURLsConcurrently` returns, which is what the reporter receives,
is such a sequence. -/
theorem summary_counts (config : Config) (results : List Result) :
    (outputJSONResults config results).Summary.TotalScanned = results.length ∧
    ((∀ r ∈ results, r.Error ≠ none → r.Vulnerable = false) →
      (outputJSONResults config results).Summary.VulnerableCount =
          results.countP (fun r => r.Vulnerable) ∧
      (outputTextResults config results).vulnerableCount =
          results.countP (fun r => r.Vulnerable) ∧
      (config.Verbose = true →
        (outputTextResults config results).out.getLast? =
          some (.stdout,
            summaryLine (results.countP (fun r => r.Vulnerable)) results.length))) ∧
    (∀ (L : Lib) (urls : List GoString), processURLsConcurrently L config urls results →
      ∀ r ∈ results, r.Error ≠ none → r.Vulnerable = false) := by
  obtain ⟨h1, h2, h3, h4, h5⟩ := summary_counts_findings config results
  refine ⟨h1, ?_, ?_⟩
  · intro hres
    have heq := h5 hres
    rw [heq] at h2 h3 h4
    exact ⟨h2, h3, h4⟩
  · rintro L urls ⟨s, hs, _, rfl⟩ r hr
    exact classification_error L config r ((classified_reachable L config urls s hs).1 r hr)

/-! ## The program on concrete inputs -/

theorem removeDuplicates_example :
    removeDuplicates sampleURLs =
      [str "https://a.firebaseio.com/", str "https://b.firebaseio.com/"] := by
  decide

theorem sampleSchedule_run :
    exec goLib { Concurrency := 2 } sampleSchedule (processURLsConcurrently.init sampleURLs) =
      some
        { uniqueURLs := [str "https://a.firebaseio.com/", str "https://b.firebaseio.com/"],
          urlChan := { cap := 2, closed := true },
          resultChan := { cap := 2, closed := true },
          results :=
            [{ URL := str "https://b.firebaseio.com/", Error := some (str "timeout") },
             { URL := str "https://a.firebaseio.com/", Vulnerable := true,
               VulnType := str "READ ACCESS" }],
          main := .returned,
          workers := [.done, .done],
          closer := .done } := by
  decide

theorem idleSchedule_run :
    exec goLib { Concurrency := 0 } idleSchedule (processURLsConcurrently.init [sampleTarget]) =
      some
        { uniqueURLs := [sampleTarget],
          urlChan := { buf := [sampleTarget], cap := 1, closed := true },
          resultChan := { cap := 1, closed := true },
          main := .returned,
          closer := .done } := by
  decide

/-- Witness of C1: the three bodies named by the claim, each at a different
status. -/
theorem checkFirebaseVulnerability_parsed_witness :
    (checkFirebaseVulnerability goLib {}
        (respond 404 (str "\x7b\"error\":\"404 Not Found\"\x7d")) sampleTarget).2 =
      { URL := sampleTarget, Vulnerable := true, VulnType := str "TAKEOVER", Error := none } ∧
    (checkFirebaseVulnerability goLib {}
        (respond 401 (str "\x7b\"error\":\"Permission denied\"\x7d")) sampleTarget).2 =
      { URL := sampleTarget, Vulnerable := false, VulnType := str "", Error := none } ∧
    (checkFirebaseVulnerability goLib {}
        (respond 200 (str "\x7b\"foo\":\"bar\"\x7d")) sampleTarget).2 =
      { URL := sampleTarget, Vulnerable := true, VulnType := str "READ ACCESS",
        Error := none } :=
  ⟨(checkFirebaseVulnerability_parsed goLib {}
      (respond 404 (str "\x7b\"error\":\"404 Not Found\"\x7d")) sampleTarget 404
      (str "\x7b\"error\":\"404 Not Found\"\x7d") { Error := str "404 Not Found" }
      rfl (by decide)).1 (by decide) (by decide),
    (checkFirebaseVulnerability_parsed goLib {}
      (respond 401 (str "\x7b\"error\":\"Permission denied\"\x7d")) sampleTarget 401
      (str "\x7b\"error\":\"Permission denied\"\x7d") { Error := str "Permission denied" }
      rfl (by decide)).2.1 (by decide) (by decide),
    (checkFirebaseVulnerability_parsed goLib {}
      (respond 200 (str "\x7b\"foo\":\"bar\"\x7d")) sampleTarget 200
      (str "\x7b\"foo\":\"bar\"\x7d") { Error := str "" }
      rfl (by decide)).2.2 (by decide)⟩

/-- Witness of C2: status 200 with the body `hello world` is READ ACCESS, and
the same body at status 500 is the failure. -/
theorem checkFirebaseVulnerability_unparsed_witness :
    (checkFirebaseVulnerability goLib {} (respond 200 (str "hello world")) sampleTarget).2 =
      { URL := sampleTarget, Vulnerable := true, VulnType := str "READ ACCESS",
        Error := none } ∧
    (checkFirebaseVulnerability goLib {} (respond 500 (str "hello world")) sampleTarget).2 =
      { URL := sampleTarget, Vulnerable := false, VulnType := str "",
        Error := some (str "could not parse response as JSON") } :=
  ⟨(checkFirebaseVulnerability_unparsed goLib {} (respond 200 (str "hello world"))
      sampleTarget 200 (str "hello world") (str "invalid JSON") rfl (by decide)).1.mpr
      (by decide),
    (checkFirebaseVulnerability_unparsed goLib {} (respond 500 (str "hello world"))
      sampleTarget 500 (str "hello world") (str "invalid JSON") rfl (by decide)).2
      (by decide)⟩

/-- Witness of C6: path, query and fragment are dropped and the host keeps
its capital letters. -/
theorem processFirebaseURL_accepted_witness :
    (processFirebaseURL goLib {} (str "https://ABC.firebaseio.com/path/x?y=1#frag")).2 =
      str "https://ABC.firebaseio.com/" :=
  (processFirebaseURL_accepted goLib {} (str "https://ABC.firebaseio.com/path/x?y=1#frag")
    { Scheme := str "https", Host := str "ABC.firebaseio.com", Path := str "/path/x",
      RawQuery := str "y=1", Fragment := str "frag" } (by decide) (by decide)).1.trans
    (by decide)

/-- Witness of C8: a well-formed URL of another host is rejected in verbose mode. -/
theorem processFirebaseURL_rejected_witness :
    (processFirebaseURL goLib { Verbose := true } (str "https://example.com/x")).2 = str "" :=
  (processFirebaseURL_rejected goLib { Verbose := true } (str "https://example.com/x")
    (by decide)).1

/-- C7 on the code: an input without a scheme is parsed as a path, with an
empty scheme and an empty host, and is turned into the target ":///". -/
theorem processFirebaseURL_without_scheme :
    goLib.urlParse (str "abc.firebaseio.com") = .ok { Path := str "abc.firebaseio.com" } ∧
    (processFirebaseURL goLib {} (str "abc.firebaseio.com")).2 = str ":///" ∧
    (processFirebaseURL goLib {} (str "abc.firebaseio.com/path")).2 = str ":///" := by
  decide

/-- Witness of C9: three results of the classifier in verbose mode, one of
them vulnerable, and the two results returned by the sample run. -/
theorem summary_counts_witness :
    ((outputJSONResults { Verbose := true } sampleResults).Summary.TotalScanned = 3 ∧
      (outputJSONResults { Verbose := true } sampleResults).Summary.VulnerableCount = 1 ∧
      (outputTextResults { Verbose := true } sampleResults).vulnerableCount = 1 ∧
      (outputTextResults { Verbose := true } sampleResults).out.getLast? =
        some (.stdout,
          str "\nScan completed. Found 1 vulnerable endpoints out of 3 total.\n")) ∧
    (outputJSONResults { Concurrency := 2 }
        [{ URL := str "https://b.firebaseio.com/", Error := some (str "timeout") },
         { URL := str "https://a.firebaseio.com/", Vulnerable := true,
           VulnType := str "READ ACCESS" }]).Summary.VulnerableCount = 1 :=
  ⟨⟨(summary_counts { Verbose := true } sampleResults).1.trans (by decide),
      ((summary_counts { Verbose := true } sampleResults).2.1 (by decide)).1.trans (by decide),
      ((summary_counts { Verbose := true } sampleResults).2.1 (by decide)).2.1.trans
        (by decide),
      (((summary_counts { Verbose := true } sampleResults).2.1 (by decide)).2.2 rfl).trans
        (by decide)⟩,
    ((summary_counts { Concurrency := 2 } _).2.1
      ((summary_counts { Concurrency := 2 } _).2.2 goLib sampleURLs
        ⟨_, ⟨sampleSchedule, sampleSchedule_run⟩, rfl, rfl⟩)).1.trans (by decide)⟩

/-- Counterexample to C4 as stated: with concurrency 0 and one target, a run
returns no result. -/
theorem processURLsConcurrently_counterexample :
    removeDuplicates [sampleTarget] = [sampleTarget] ∧
    processURLsConcurrently goLib { Concurrency := 0 } [sampleTarget] [] :=
  ⟨by decide, _, ⟨idleSchedule, idleSchedule_run⟩, rfl, rfl⟩

/-- Witness of C4 as amended: two workers on three inputs with two distinct
targets; one run returns the second target before the first, and every run
returns two results, one for each target. -/
theorem processURLsConcurrently_each_target_once_witness :
    processURLsConcurrently goLib { Concurrency := 2 } sampleURLs
      [{ URL := str "https://b.firebaseio.com/", Error := some (str "timeout") },
       { URL := str "https://a.firebaseio.com/", Vulnerable := true,
         VulnType := str "READ ACCESS" }] ∧
    (∀ results, processURLsConcurrently goLib { Concurrency := 2 } sampleURLs results →
      results.length = 2 ∧
      (results.map Result.URL).Perm
        [str "https://a.firebaseio.com/", str "https://b.firebaseio.com/"]) :=
  ⟨⟨_, ⟨sampleSchedule, sampleSchedule_run⟩, rfl, rfl⟩,
    fun results hr => by
      have h := (processURLsConcurrently_each_target_once goLib { Concurrency := 2 }
        sampleURLs (by decide)).2.2 results hr
      rw [removeDuplicates_example] at h
      exact ⟨h.1, h.2.1⟩⟩

/-- Witness of C10: with concurrency -1 the run on the sample inputs returns
no result, and no run returns any. -/
theorem processURLsConcurrently_no_worker_witness :
    processURLsConcurrently goLib { Concurrency := -1 } sampleURLs [] ∧
    (∀ results, processURLsConcurrently goLib { Concurrency := -1 } sampleURLs results →
      results = []) :=
  (processURLsConcurrently_no_worker goLib { Concurrency := -1 } sampleURLs (by decide)).2.2

end Firemon
